import Mathlib

/-!
Verification of the RetroGalatica core: the MongoDB-export repair parser,
the player position resolver, the award/stat aggregator and the team draw
engine (files `app.py` and `gerar_ranking.py`; the two copies of
`parse_mongodb_json` are textually identical, so a single embedding covers
both).  Python strings are modelled as Lean `String` (lists of characters),
Python `dict`s as insertion-ordered association lists, Python exceptions as
`Except String`, and the unseeded `random.shuffle` calls as injected
reordering functions.
-/

set_option autoImplicit false

namespace RetroGalatica

/-! ### Python string primitives -/

/-- Characters stripped by Python `str.strip()` (whitespace). -/
def isWsChar (c : Char) : Bool :=
  c = ' ' || c = '\t' || c = '\n' || c = '\r' || c = '\x0b' || c = '\x0c'

def pyStripL (l : List Char) : List Char :=
  ((l.dropWhile isWsChar).reverse.dropWhile isWsChar).reverse

/-- Python `str.strip()`. -/
def pyStrip (s : String) : String := ⟨pyStripL s.toList⟩

/-- Python `str.lower()` (ASCII fragment, which covers all data in scope). -/
def lowerS (s : String) : String := ⟨s.toList.map Char.toLower⟩

def splitWsGo (acc : List Char) : List Char → List (List Char)
  | [] => if acc.isEmpty then [] else [acc.reverse]
  | c :: cs =>
    if isWsChar c then
      if acc.isEmpty then splitWsGo [] cs else acc.reverse :: splitWsGo [] cs
    else splitWsGo (c :: acc) cs

/-- Python `str.split()` with no argument: split on whitespace runs, no empties. -/
def pySplitWs (s : String) : List String := (splitWsGo [] s.toList).map (⟨·⟩)

def startsWithL : List Char → List Char → Bool
  | [], _ => true
  | _ :: _, [] => false
  | c :: cs, d :: ds => c = d && startsWithL cs ds

def containsSubL (pat : List Char) : List Char → Bool
  | [] => pat.isEmpty
  | c :: rest => startsWithL pat (c :: rest) || containsSubL pat rest

/-- Python `pat in s` (substring containment). -/
def containsSub (pat s : String) : Bool := containsSubL pat.toList s.toList

/-- Python `s.startswith(pat)`. -/
def pyStartsWith (s pat : String) : Bool := startsWithL pat.toList s.toList

/-- Python `content.split('\n')` (keeps empty pieces). -/
def splitNlGo (acc : List Char) : List Char → List (List Char)
  | [] => [acc.reverse]
  | c :: cs => if c = '\n' then acc.reverse :: splitNlGo [] cs else splitNlGo (c :: acc) cs

def splitNl (l : List Char) : List (List Char) := splitNlGo [] l

/-- Python `'\n'.join(lines)`. -/
def joinNl : List (List Char) → List Char
  | [] => []
  | [l] => l
  | l :: ls => l ++ '\n' :: joinNl ls

def digitsToNat (l : List Char) : Nat :=
  l.foldl (fun n c => n * 10 + (c.toNat - 48)) 0

/-! ### JSON values and a model of `json.loads`

`json.loads` is Python standard library, not repository code; it is modelled
by a recursive-descent parser over the JSON fragment this data uses
(objects, arrays, strings with escapes, integers, booleans, null).  Floats
and `\u` escapes are rejected; no input in this development contains them.
Duplicate object keys keep the first position and the last value, as in
Python dicts. -/

inductive Json where
  | null
  | bool (b : Bool)
  | int (n : Int)
  | str (s : String)
  | arr (elems : List Json)
  | obj (fields : List (String × Json))

/-- Insert-or-update on an insertion-ordered association list (Python dict
assignment). -/
def aupsert {β : Type} (k : String) (v : β) : List (String × β) → List (String × β)
  | [] => [(k, v)]
  | (k2, v2) :: rest => if k2 == k then (k2, v) :: rest else (k2, v2) :: aupsert k v rest

/-- First-match lookup on an association list (Python dict lookup). -/
def alookup {β : Type} (d : List (String × β)) (k : String) : Option β :=
  (d.find? (fun kv => kv.1 == k)).map (·.2)

def skipWsJ (l : List Char) : List Char :=
  l.dropWhile (fun c => c = ' ' || c = '\t' || c = '\n' || c = '\r')

/-- Parse the body of a JSON string literal (after the opening quote);
returns decoded characters and the input after the closing quote. -/
def parseStrBody : List Char → Option (List Char × List Char)
  | [] => none
  | c :: cs =>
    if c = '"' then some ([], cs)
    else if c = '\\' then
      match cs with
      | [] => none
      | e :: cs2 =>
        let dec : Option Char :=
          if e = '"' then some '"'
          else if e = '\\' then some '\\'
          else if e = '/' then some '/'
          else if e = 'n' then some '\n'
          else if e = 't' then some '\t'
          else if e = 'r' then some '\r'
          else if e = 'b' then some '\x08'
          else if e = 'f' then some '\x0c'
          else none
        match dec with
        | some d =>
          match parseStrBody cs2 with
          | some (out, rest) => some (d :: out, rest)
          | none => none
        | none => none
    else if c.toNat < 32 then none
    else
      match parseStrBody cs with
      | some (out, rest) => some (c :: out, rest)
      | none => none

/-- Parse a JSON integer (strict JSON: no leading zeros; floats rejected). -/
def parseNum (l : List Char) : Option (Int × List Char) :=
  let (neg, l2) := match l with
    | '-' :: rest => (true, rest)
    | _ => (false, l)
  let ds := l2.takeWhile Char.isDigit
  let rest := l2.dropWhile Char.isDigit
  if ds.isEmpty then none
  else if ds.length > 1 && ds.headD '0' = '0' then none
  else
    match rest with
    | '.' :: _ => none
    | 'e' :: _ => none
    | 'E' :: _ => none
    | _ =>
      let n : Int := Int.ofNat (digitsToNat ds)
      some (if neg then -n else n, rest)

mutual

def parseVal : Nat → List Char → Option (Json × List Char)
  | 0, _ => none
  | fuel + 1, l =>
    match skipWsJ l with
    | [] => none
    | c :: rest =>
      if c = '"' then
        match parseStrBody rest with
        | some (cs, r) => some (.str ⟨cs⟩, r)
        | none => none
      else if c = '{' then
        match skipWsJ rest with
        | '}' :: r2 => some (.obj [], r2)
        | r =>
          match parseObjRest fuel r with
          | some (fs, r2) => some (.obj (fs.foldl (fun d kv => aupsert kv.1 kv.2 d) []), r2)
          | none => none
      else if c = '[' then
        match skipWsJ rest with
        | ']' :: r2 => some (.arr [], r2)
        | r =>
          match parseArrRest fuel r with
          | some (es, r2) => some (.arr es, r2)
          | none => none
      else if c = 't' then
        if startsWithL ['r', 'u', 'e'] rest then some (.bool true, rest.drop 3) else none
      else if c = 'f' then
        if startsWithL ['a', 'l', 's', 'e'] rest then some (.bool false, rest.drop 4) else none
      else if c = 'n' then
        if startsWithL ['u', 'l', 'l'] rest then some (.null, rest.drop 3) else none
      else
        match parseNum (c :: rest) with
        | some (n, r) => some (.int n, r)
        | none => none

def parseObjRest : Nat → List Char → Option (List (String × Json) × List Char)
  | 0, _ => none
  | fuel + 1, l =>
    match l with
    | '"' :: r =>
      match parseStrBody r with
      | some (k, r2) =>
        match skipWsJ r2 with
        | ':' :: r3 =>
          match parseVal fuel r3 with
          | some (v, r4) =>
            match skipWsJ r4 with
            | ',' :: r5 =>
              match parseObjRest fuel (skipWsJ r5) with
              | some (fs, r6) => some ((⟨k⟩, v) :: fs, r6)
              | none => none
            | '}' :: r5 => some ([(⟨k⟩, v)], r5)
            | _ => none
          | none => none
        | _ => none
      | none => none
    | _ => none

def parseArrRest : Nat → List Char → Option (List Json × List Char)
  | 0, _ => none
  | fuel + 1, l =>
    match parseVal fuel l with
    | some (v, r) =>
      match skipWsJ r with
      | ',' :: r2 =>
        match parseArrRest fuel r2 with
        | some (es, r3) => some (v :: es, r3)
        | none => none
      | ']' :: r2 => some ([v], r2)
      | _ => none
    | none => none

end

/-- Model of Python `json.loads` on the JSON fragment in scope: parse one
value, then require only trailing whitespace. -/
def json_loads (l : List Char) : Option Json :=
  match parseVal (l.length + 1) l with
  | some (j, rest) => if (skipWsJ rest).isEmpty then some j else none
  | none => none

/-! ### The MongoDB-construct rewrites (the three `re.sub` calls) -/

/-- One-position matcher for `ObjectId("X")` with nonempty quote-free `X`;
returns (replacement, rest). -/
def matchObjectId (l : List Char) : Option (List Char × List Char) :=
  if startsWithL "ObjectId(\"".toList l then
    let r := l.drop 10
    let cap := r.takeWhile (· ≠ '"')
    if cap.isEmpty then none
    else
      match r.drop cap.length with
      | '"' :: ')' :: rest => some ('"' :: (cap ++ ['"']), rest)
      | _ => none
  else none

/-- One-position matcher for `NumberInt(N)` with nonempty digits `N`. -/
def matchNumberInt (l : List Char) : Option (List Char × List Char) :=
  if startsWithL "NumberInt(".toList l then
    let r := l.drop 10
    let cap := r.takeWhile Char.isDigit
    if cap.isEmpty then none
    else
      match r.drop cap.length with
      | ')' :: rest => some (cap, rest)
      | _ => none
  else none

/-- One-position matcher for `ISODate("X")` with nonempty quote-free `X`. -/
def matchISODate (l : List Char) : Option (List Char × List Char) :=
  if startsWithL "ISODate(\"".toList l then
    let r := l.drop 9
    let cap := r.takeWhile (· ≠ '"')
    if cap.isEmpty then none
    else
      match r.drop cap.length with
      | '"' :: ')' :: rest => some ('"' :: (cap ++ ['"']), rest)
      | _ => none
  else none

/-- Left-to-right non-overlapping rewriting, as `re.sub` does; the fuel is
the input length (every accepted match consumes at least one character). -/
def rewriteAux (f : List Char → Option (List Char × List Char)) : Nat → List Char → List Char
  | 0, l => l
  | _ + 1, [] => []
  | fuel + 1, c :: rest =>
    match f (c :: rest) with
    | some (rep, rest2) => rep ++ rewriteAux f fuel rest2
    | none => c :: rewriteAux f fuel rest

def rewriteAll (f : List Char → Option (List Char × List Char)) (l : List Char) : List Char :=
  rewriteAux f l.length l

/-- The three substitutions of `parse_mongodb_json`, in source order. -/
def mongoSubs (l : List Char) : List Char :=
  rewriteAll matchISODate (rewriteAll matchNumberInt (rewriteAll matchObjectId l))

/-! ### The line scanner of `parse_mongodb_json` -/

structure ScanState where
  depth : Int
  inStr : Bool
  esc : Bool
deriving DecidableEq

def scanInit : ScanState := ⟨0, false, false⟩

/-- One character of the brace/bracket depth tracker (`for char in line`). -/
def scanChar (st : ScanState) (c : Char) : ScanState :=
  if st.esc then { st with esc := false }
  else if c = '\\' then { st with esc := true }
  else if c = '"' then { st with inStr := !st.inStr }
  else if !st.inStr then
    if c = '{' || c = '[' then { st with depth := st.depth + 1 }
    else if c = '}' || c = ']' then { st with depth := st.depth - 1 }
    else st
  else st

def scanLine (st : ScanState) (l : List Char) : ScanState := l.foldl scanChar st

def jsonHasFullName : Json → Bool
  | .obj fs => fs.any (fun kv => kv.1 == "fullName")
  | _ => false

structure PState where
  players : List Json
  buf : List (List Char)
  scan : ScanState

def pInit : PState := ⟨[], [], scanInit⟩

/-- One iteration of the `for line in lines` loop. -/
def processLine (st : PState) (line : List Char) : PState :=
  if st.buf.isEmpty && !line.contains '{' then st
  else
    let buf2 := st.buf ++ [line]
    let sc2 := scanLine st.scan line
    if sc2.depth = 0 then
      let objStr := joinNl buf2
      let players2 :=
        match json_loads objStr with
        | some j => if jsonHasFullName j then st.players ++ [j] else st.players
        | none => st.players
      ⟨players2, [], sc2⟩
    else ⟨st.players, buf2, sc2⟩

/-- The line-scanning pass of `parse_mongodb_json` (after the rewrites). -/
def scanPhase (content : List Char) : PState :=
  (splitNl content).foldl processLine pInit

/-- `parse_mongodb_json` (`app.py` lines 18-91, identical copy in
`gerar_ranking.py` lines 30-103). -/
def parse_mongodb_json (content : String) : List Json :=
  let c2 := mongoSubs content.toList
  let ps := scanPhase c2
  if ps.players.isEmpty then
    match json_loads c2 with
    | some (.obj fs) => [Json.obj fs]
    | some (.arr es) => es
    | _ => []
  else ps.players

/-! ### Player position resolver (`app.py` lines 94-176)

Python raises `AttributeError` when `.get`/`.strip()` is applied to a value
of the wrong dynamic type; this is modelled with `Except String`. -/

/-- `player.get(k, default)` — raises on a non-dict receiver. -/
def pyGet (j : Json) (k : String) (dflt : Json) : Except String Json :=
  match j with
  | .obj fs => .ok ((alookup fs k).getD dflt)
  | _ => .error "AttributeError"

/-- `.strip()` — raises on a non-string receiver. -/
def pyStripJ (j : Json) : Except String String :=
  match j with
  | .str s => .ok (pyStrip s)
  | _ => .error "AttributeError"

/-- `player.get(k, '').strip()`. -/
def getStrStripped (p : Json) (k : String) : Except String String := do
  let v ← pyGet p k (.str "")
  pyStripJ v

/-- The pure normalization chain of `extrair_posicao_normalizada`
(`app.py` lines 135-151): prefer `prizeDrawPosition`, then match substrings
in priority order, falling back to the raw stripped label. -/
def normalizeExtrLabel (position prize : String) : String :=
  let posicaoFinal := if prize ≠ "" then prize else position
  let lo := lowerS posicaoFinal
  if containsSub "zagueiro" lo || containsSub "lateral" lo then "ZAG"
  else if containsSub "meia" lo || containsSub "volante" lo then "MEI"
  else if containsSub "atacante" lo || containsSub "ponta" lo then "ATA"
  else if containsSub "ponta esquerda" lo || containsSub "ponta direita" lo then "ATA"
  else if containsSub "lateral direito" lo || containsSub "lateral esquerdo" lo then "ZAG"
  else posicaoFinal

/-- `extrair_posicao_normalizada` (`app.py` lines 128-151). -/
def extrair_posicao_normalizada (p : Json) : Except String String := do
  let position ← getStrStripped p "position"
  let prize ← getStrStripped p "prizeDrawPosition"
  pure (normalizeExtrLabel position prize)

/-- First loop of `buscar_posicao_jogador`: per candidate, exact match, then
token containment. -/
def buscarLoop1 (nomeNorm : String) (palavras : List String) :
    List Json → Except String (Option String)
  | [] => .ok none
  | p :: rest => do
    let fn ← getStrStripped p "fullName"
    let fl := lowerS fn
    if fl = nomeNorm then some <$> extrair_posicao_normalizada p
    else if !palavras.isEmpty && palavras.all (fun w => containsSub w fl) then
      some <$> extrair_posicao_normalizada p
    else buscarLoop1 nomeNorm palavras rest

/-- Second loop: first-token prefix-or-containment fallback. -/
def buscarLoop2 (w0 : String) : List Json → Except String (Option String)
  | [] => .ok none
  | p :: rest => do
    let fn ← getStrStripped p "fullName"
    let fl := lowerS fn
    if pyStartsWith fl w0 || containsSub w0 fl then some <$> extrair_posicao_normalizada p
    else buscarLoop2 w0 rest

/-- `buscar_posicao_jogador` (`app.py` lines 94-125). -/
def buscar_posicao_jogador (nome : String) (players : List Json) :
    Except String (Option String) := do
  let nomeNorm := lowerS (pyStrip nome)
  let palavras := pySplitWs nomeNorm
  let r1 ← buscarLoop1 nomeNorm palavras players
  match r1 with
  | some v => pure (some v)
  | none =>
    match palavras with
    | [] => pure none
    | w0 :: _ => buscarLoop2 w0 players

/-- `normalizar_posicao` (`app.py` lines 154-176). -/
def normalizar_posicao (posicao : String) : String :=
  if posicao = "" then "ATA"
  else
    let lo := lowerS posicao
    if containsSub "zag" lo || containsSub "lateral" lo then "ZAG"
    else if containsSub "mei" lo || containsSub "volante" lo then "MEI"
    else if containsSub "ata" lo || containsSub "ponta" lo then "ATA"
    else "ATA"

/-! ### Team draw engine (`sortear_times`, `app.py` lines 179-461) -/

/-- The hardcoded `jogadores_com_posicao` table, in source order. -/
def tabelaBase : List (String × String) :=
  [("Arnaldo", "ATA"), ("Ronald", "ZAG"), ("Luiz Kelvin", "ZAG"), ("Kawa Messi", "ZAG"),
   ("Henrique", "ZAG"), ("Vertinho", "ATA"), ("Cabinha", "ZAG"), ("Weslly", "ZAG"),
   ("Guilherme", "ZAG"), ("Nilson", "ATA"), ("Tavares", "MEI"), ("Samuel", "ZAG"),
   ("Jonis", "ATA"), ("Adelson", "MEI"), ("Deyvde", "ATA"), ("Kelvin", "ATA"),
   ("Andrew", "ATA"), ("Lito", "ZAG"), ("Caio", "ZAG"), ("Luan", "ZAG"),
   ("Matador", "ATA"), ("Israel", "ATA"), ("Luiz", "ZAG"), ("Vini", "MEI"),
   ("Arthur", "ATA")]

def jogadores_sem_posicao : List String := ["Luiz Kelvin", "Nilson", "Adelson", "Luan"]

def todos_jogadores : List String :=
  ["Arnaldo", "Ronald", "Luiz Kelvin", "Kawa Messi", "Henrique",
   "Vertinho", "Cabinha", "Weslly", "Guilherme", "Nilson",
   "Tavares", "Samuel", "Jonis", "Adelson", "Deyvde",
   "Kelvin", "Andrew", "Lito", "Caio", "Luan",
   "Matador", "Israel", "Luiz", "Vini", "Arthur"]

def grupo_restrito : List String := ["Arnaldo", "Kelvin", "Tavares", "Vertinho"]

def nome_alternativo : List (String × String) := [("Matheus Tavares", "Tavares")]

/-- The `for nome in jogadores_sem_posicao` resolution loop
(`app.py` lines 240-251); `if posicao:` is Python truthiness, so an empty
string also takes the name-based default branch. -/
def resolveSemGo (players : List Json) :
    List String → List (String × String) → Except String (List (String × String))
  | [], tbl => .ok tbl
  | nome :: rest, tbl => do
    let r ← buscar_posicao_jogador nome players
    let tbl2 :=
      match r with
      | some p =>
        if p ≠ "" then aupsert nome (normalizar_posicao p) tbl
        else if containsSub "Luiz" nome then aupsert nome "ZAG" tbl
        else if nome == "Adelson" then aupsert nome "MEI" tbl
        else aupsert nome "ATA" tbl
      | none =>
        if containsSub "Luiz" nome then aupsert nome "ZAG" tbl
        else if nome == "Adelson" then aupsert nome "MEI" tbl
        else aupsert nome "ATA" tbl
    resolveSemGo players rest tbl2

/-- Position bucketing (`app.py` lines 272-283). -/
def bucketize (tbl : List (String × String)) : List String × List String × List String :=
  (todos_jogadores.filter (fun n => (alookup tbl n).getD "ATA" == "ZAG"),
   todos_jogadores.filter (fun n => (alookup tbl n).getD "ATA" == "MEI"),
   todos_jogadores.filter (fun n =>
     (alookup tbl n).getD "ATA" != "ZAG" && (alookup tbl n).getD "ATA" != "MEI"))

/-- One team of the 2-ZAG/1-MEI/2-ATA quota fill (pops skip empty buckets). -/
def fillOne (z m a : List String) :
    List String × (List String × List String × List String) :=
  (z.take 2 ++ m.take 1 ++ a.take 2, (z.drop 2, m.drop 1, a.drop 2))

/-- The quota fill for 4 teams (`app.py` lines 291-309, reused verbatim at
lines 408-421 in the reset branch). -/
def fillQuota (z m a : List String) :
    List (List String) × (List String × List String × List String) :=
  let r0 := fillOne z m a
  let r1 := fillOne r0.2.1 r0.2.2.1 r0.2.2.2
  let r2 := fillOne r1.2.1 r1.2.2.1 r1.2.2.2
  let r3 := fillOne r2.2.1 r2.2.2.1 r2.2.2.2
  ([r0.1, r1.1, r2.1, r3.1], r3.2)

/-- `while len(times[i]) < 5 and todos_restantes:` top-up
(`app.py` lines 314-316). -/
def topUpGo : List (List String) → List String → List (List String) × List String
  | [], rest => ([], rest)
  | t :: ts, rest =>
    let need := 5 - t.length
    let r := topUpGo ts (rest.drop need)
    ((t ++ rest.take need) :: r.1, r.2)

/-- `while len(times[i]) > 5:` trim, popping from the end
(`app.py` lines 320-322). -/
def trimGo : List (List String) → List String → List (List String) × List String
  | [], rest => ([], rest)
  | t :: ts, rest =>
    let t2 := if t.length ≤ 5 then t else t.take 5
    let rest2 := if t.length ≤ 5 then rest else rest ++ (t.drop 5).reverse
    let r := trimGo ts rest2
    (t2 :: r.1, r.2)

/-- Restricted-group membership, alias table included
(`app.py` lines 336-340, 350). -/
def isRestrito (j : String) : Bool :=
  grupo_restrito.contains j ||
  (match alookup nome_alternativo j with
   | some alt => grupo_restrito.contains alt
   | none => false)

def removeFirst (x : String) : List String → List String
  | [] => []
  | y :: ys => if y == x then ys else y :: removeFirst x ys

def modifyAt (times : List (List String)) (i : Nat) (f : List String → List String) :
    List (List String) :=
  times.enum.map (fun jt => if jt.1 == i then f jt.2 else jt.2)

/-- One pass of the constraint-repair `while` body (`app.py` lines 330-363):
handle the first team holding more than one restricted member, or report
`none` when no team violates the constraint. -/
def repairStep (times : List (List String)) : Option (List (List String)) :=
  match times.enum.find? (fun it => decide (1 < (it.2.filter isRestrito).length)) with
  | none => none
  | some (idx, t) =>
    match t.filter isRestrito with
    | [] => none
    | m :: _ =>
      let times1 := modifyAt times idx (removeFirst m)
      let tgt :=
        match times1.enum.find? (fun it =>
            it.1 != idx && !it.2.any isRestrito && decide (it.2.length < 5)) with
        | some (i, _) => some i
        | none =>
          match times1.enum.find? (fun it => it.1 != idx && decide (it.2.length < 5)) with
          | some (i, _) => some i
          | none => none
      match tgt with
      | some i => some (modifyAt times1 i (· ++ [m]))
      | none => some times1

/-- The bounded repair loop; fuel `50 - tentativa`, so a returned count of 50
is exactly Python's `tentativa >= max_tentativas`. -/
def repairLoop : Nat → Nat → List (List String) → List (List String) × Nat
  | 0, tent, times => (times, tent)
  | fuel + 1, tent, times =>
    match repairStep times with
    | none => (times, tent)
    | some times2 => repairLoop fuel (tent + 1) times2

/-- The full-reset redistribution (`app.py` lines 371-421).  Note the source
rebinds `todos_jogadores` here (line 393): the returned second component is
that rebound list, later used to compute `time_5`. -/
structure Shuffles where
  zag : List String → List String
  mei : List String → List String
  ata : List String → List String
  resetRestr : List String → List String
  resetZag : List String → List String
  resetMei : List String → List String
  resetAta : List String → List String

def resetPhase (times : List (List String)) (tbl : List (String × String))
    (sh : Shuffles) : List (List String) × List String :=
  let presentes := grupo_restrito.filter (fun j => times.any (fun t => t.contains j))
  let presentesAlt := (nome_alternativo.filter (fun kv =>
    grupo_restrito.contains kv.2 && times.any (fun t => t.contains kv.1))).map (·.1)
  let restr := sh.resetRestr (presentes ++ presentesAlt)
  let times1 := times.map (·.filter (fun j =>
    !grupo_restrito.contains j && (alookup nome_alternativo j).isNone))
  let times2 := (restr.take 4).enum.foldl (fun ts ij => modifyAt ts ij.1 (· ++ [ij.2])) times1
  let todos2 := times2.flatten
  let zr := sh.resetZag (todos2.filter (fun j => alookup tbl j == some "ZAG"))
  let mr := sh.resetMei (todos2.filter (fun j => alookup tbl j == some "MEI"))
  let ar := sh.resetAta (todos2.filter (fun j => alookup tbl j == some "ATA"))
  ((fillQuota zr mr ar).1, todos2)

structure TimeInfo where
  numero : Nat
  jogadores : List String
  posicoes : List (String × String)

structure Payload where
  times : List TimeInfo
  time_5 : List String
  posicoes : List (String × String)

/-- The draw either returns the `{'erro': ...}` mapping or the team payload. -/
inductive DrawRes where
  | erro (msg : String)
  | payload (p : Payload)

/-- Result assembly (`app.py` lines 423-461): compute `time_5` from the
(possibly rebound) `todos_jogadores`, then build the per-team and global
position mappings; `time_5` members absent from the table consult the
resolver, whose `AttributeError`s propagate. -/
def buildPayload (tbl : List (String × String)) (players : List Json)
    (timesF : List (List String)) (todosF : List String) : Except String DrawRes := do
  let nosTimes := timesF.flatten
  let time5 := todosF.filter (fun j => !nosTimes.contains j)
  let timesInfo := timesF.enum.map (fun it =>
    { numero := it.1 + 1, jogadores := it.2,
      posicoes := it.2.foldl (fun d j => aupsert j ((alookup tbl j).getD "ATA") d) []
      : TimeInfo })
  let posGlobal0 := nosTimes.foldl (fun d j => aupsert j ((alookup tbl j).getD "ATA") d) []
  let posGlobal ← time5.foldlM (fun d j => do
    match alookup tbl j with
    | some v => pure (aupsert j v d)
    | none => do
      let r ← buscar_posicao_jogador j players
      let v := match r with
        | some p => if p ≠ "" then normalizar_posicao p else "ATA"
        | none => "ATA"
      pure (aupsert j v d)) posGlobal0
  pure (DrawRes.payload { times := timesInfo, time_5 := time5, posicoes := posGlobal })

/-- `sortear_times` (`app.py` lines 179-461).  The backing file read is the
`Option String` argument (`none` = missing/unreadable, in which case the
`except` branch returns the error mapping); each `random.shuffle` call is an
injected reordering from `sh`.  Uncaught Python exceptions (e.g.
`AttributeError` from non-string record fields in
`buscar_posicao_jogador`, which runs outside the `try`) surface as
`Except.error`. -/
def sortear_times (file : Option String) (sh : Shuffles) : Except String DrawRes := do
  match file with
  | none => pure (DrawRes.erro "Erro ao carregar players.json: arquivo ausente")
  | some content =>
    let players := parse_mongodb_json content
    let tbl ← resolveSemGo players jogadores_sem_posicao tabelaBase
    let buckets := bucketize tbl
    let z := sh.zag buckets.1
    let m := sh.mei buckets.2.1
    let a := sh.ata buckets.2.2
    let filled := fillQuota z m a
    let restantes := filled.2.1 ++ filled.2.2.1 ++ filled.2.2.2
    let upped := topUpGo filled.1 restantes
    let trimmed := trimGo upped.1 upped.2
    let repaired := repairLoop 50 0 trimmed.1
    let final :=
      if repaired.2 ≥ 50 then resetPhase repaired.1 tbl sh
      else (repaired.1, todos_jogadores)
    buildPayload tbl players final.1 final.2

/-! ### Award/stat aggregator (`gerar_ranking.py` lines 106-289)

Records are modelled with string-or-absent name/position/image/teamCode
fields (a non-string there makes the Python code raise `AttributeError`, as
in the app model's `pyStripJ`; the aggregator claims are settled over
well-typed records).  Award and stat values keep their dynamic type: the
source checks `isinstance(v, (int, str))` — which accepts booleans, since
Python `bool` is an `int` subtype — and applies `int(...)`, ignoring
failures and non-positive results. -/

inductive JVal where
  | jint (n : Int)
  | jbool (b : Bool)
  | jstr (s : String)
  | jother

structure TeamEntry where
  teamCode : String
  awards : List (String × JVal)
  stats : List (String × JVal)

structure PlayerRec where
  fullName : Option String
  position : Option String
  imagePlayer : Option String
  teamCode : Option String
  includedTeams : List TeamEntry

/-- Python `int(s)` on a string: optional sign and digits, surrounding
whitespace allowed. -/
def pyIntOfStr (s : String) : Option Int :=
  let l := pyStripL s.toList
  match l with
  | '-' :: ds =>
    if !ds.isEmpty && ds.all Char.isDigit then some (-(Int.ofNat (digitsToNat ds))) else none
  | '+' :: ds =>
    if !ds.isEmpty && ds.all Char.isDigit then some (Int.ofNat (digitsToNat ds)) else none
  | ds =>
    if !ds.isEmpty && ds.all Char.isDigit then some (Int.ofNat (digitsToNat ds)) else none

/-- `isinstance(v, (int, str))` plus `int(v)` with failures skipped. -/
def coerceQtd : JVal → Option Int
  | .jint n => some n
  | .jbool b => some (if b then 1 else 0)
  | .jstr s => pyIntOfStr s
  | .jother => none

def campos_estatisticas_gerais : List String := ["totalAssistence", "totalGoals"]

def campos_estatisticas_partidas : List String :=
  ["totalGamePlayed", "totalWins", "totalDefeat", "totalDraw"]

def campos_estatisticas_goleiros : List String :=
  ["totalGamePlayed", "totalWins", "totalDefeat", "totalDraw"]

def categorias_awards : List String :=
  ["craque", "artilheiro", "garcom", "muralha", "pereba", "bolaMurcha", "xerifao"]

/-- Per-player counters, insertion-ordered (`defaultdict(lambda: defaultdict(int))`). -/
abbrev Dados := List (String × List (String × Int))

def bumpInner (cat : String) (q : Int) : List (String × Int) → List (String × Int)
  | [] => [(cat, q)]
  | (c, v) :: rest => if c == cat then (c, v + q) :: rest else (c, v) :: bumpInner cat q rest

/-- `dados_alvo[nome][categoria] += qtd`. -/
def bump (nome cat : String) (q : Int) : Dados → Dados
  | [] => [(nome, bumpInner cat q [])]
  | (n, m) :: rest =>
    if n == nome then (n, bumpInner cat q m) :: rest else (n, m) :: bump nome cat q rest

/-- `team_data.get(campo, 0)`. -/
def statGet (td : TeamEntry) (campo : String) : JVal :=
  (alookup td.stats campo).getD (.jint 0)

/-- The awards accumulation loop (`gerar_ranking.py` lines 195-203). -/
def addAwards (nome : String) (td : TeamEntry) (d : Dados) : Dados :=
  td.awards.foldl (fun d kv =>
    match coerceQtd kv.2 with
    | some q => if 0 < q then bump nome kv.1 q d else d
    | none => d) d

/-- A stat-fields accumulation loop (lines 205-226). -/
def addCampos (nome : String) (td : TeamEntry) (campos : List String) (d : Dados) : Dados :=
  campos.foldl (fun d campo =>
    match coerceQtd (statGet td campo) with
    | some q => if 0 < q then bump nome campo q d else d
    | none => d) d

/-- The `includedTeams` search (lines 177-190): first entry whose stripped
`teamCode` equals the record's own stripped `teamCode`, which must be
non-empty. -/
def matchEntry (r : PlayerRec) : Option TeamEntry :=
  let ptc := pyStrip (r.teamCode.getD "")
  if ptc ≠ "" then r.includedTeams.find? (fun t => pyStrip t.teamCode == ptc) else none

def isGoleiro (r : PlayerRec) : Bool :=
  containsSub "goleiro" (lowerS (r.position.getD ""))

def nomeOf (r : PlayerRec) : String := pyStrip (r.fullName.getD "Sem nome")

structure AggSt where
  dadosJog : Dados
  dadosGol : Dados
  imagens : List (String × String)
  nomes : List String

def aggInit : AggSt := ⟨[], [], [], []⟩

/-- One iteration of the `for player in players` loop (lines 160-226). -/
def processRecord (st : AggSt) (r : PlayerRec) : AggSt :=
  let nome := nomeOf r
  let nomes2 :=
    if nome ≠ "" && nome ≠ "Sem nome" && !st.nomes.contains nome
    then st.nomes ++ [nome] else st.nomes
  let img := pyStrip (r.imagePlayer.getD "")
  let imagens2 :=
    if img ≠ "" && pyStartsWith img "http" && (alookup st.imagens nome).isNone
    then st.imagens ++ [(nome, img)] else st.imagens
  match matchEntry r with
  | none => { st with nomes := nomes2, imagens := imagens2 }
  | some td =>
    let upd := fun d =>
      addCampos nome td
        (if isGoleiro r then campos_estatisticas_goleiros else campos_estatisticas_partidas)
        (addCampos nome td campos_estatisticas_gerais (addAwards nome td d))
    if isGoleiro r then
      { st with nomes := nomes2, imagens := imagens2, dadosGol := upd st.dadosGol }
    else
      { st with nomes := nomes2, imagens := imagens2, dadosJog := upd st.dadosJog }

/-- `(vitórias, partidas)` of one counter table (lines 234-243). -/
def tieOf (dados : List (String × Int)) : Int × Int :=
  ((alookup dados "totalWins").getD 0, (alookup dados "totalGamePlayed").getD 0)

/-- The tie-break lookup of `chave_ordenacao` (line 275). -/
def tieLookup (jog gol : Dados) (nome : String) : Int × Int :=
  match alookup jog nome with
  | some d => tieOf d
  | none =>
    match alookup gol nome with
    | some d => tieOf d
    | none => (0, 999999)

def catAppend (key : String) (e : String × Int) :
    List (String × List (String × Int)) → List (String × List (String × Int))
  | [] => [(key, [e])]
  | (k, l) :: rest => if k == key then (k, l ++ [e]) :: rest else (k, l) :: catAppend key e rest

abbrev Cats := List (String × List (String × Int))

/-- One counter of a non-goalkeeper player appended to its category
(lines 250-252). -/
def jogInnerStep (nome : String) (cs : Cats) (cq : String × Int) : Cats :=
  if 0 < cq.2 then catAppend cq.1 (nome, cq.2) cs else cs

/-- One non-goalkeeper player's contribution to the category table
(lines 249-252). -/
def jogCatStep (cs : Cats) (nd : String × List (String × Int)) : Cats :=
  nd.2.foldl (jogInnerStep nd.1) cs

/-- The category key a goalkeeper counter lands under (lines 258-266). -/
def golKey (cat : String) : String :=
  if campos_estatisticas_goleiros.contains cat then "goleiro_" ++ cat else cat

/-- One counter of a goalkeeper player: awards skipped, the rest appended
under `golKey` (lines 256-267). -/
def golInnerStep (nome : String) (cs : Cats) (cq : String × Int) : Cats :=
  if 0 < cq.2 then
    if categorias_awards.contains cq.1 then cs
    else catAppend (golKey cq.1) (nome, cq.2) cs
  else cs

/-- One goalkeeper player's contribution to the category table
(lines 255-267). -/
def golCatStep (cs : Cats) (nd : String × List (String × Int)) : Cats :=
  nd.2.foldl (golInnerStep nd.1) cs

/-- Category assembly (lines 246-267): non-goalkeepers plainly; goalkeepers
skip award categories and prefix match-stat categories with `goleiro_`. -/
def buildCats (jog gol : Dados) : Cats :=
  gol.foldl golCatStep (jog.foldl jogCatStep [])

/-- `chave_ordenacao` (lines 271-281): `(quantidade, vitórias, -partidas)`. -/
def chave_ordenacao (jog gol : Dados) (e : String × Int) : Int × Int × Int :=
  let vp := tieLookup jog gol e.1
  (e.2, vp.1, -vp.2)

/-- Strict lexicographic `<` on the sort key. -/
def keyLtB (a b : Int × Int × Int) : Bool :=
  decide (a.1 < b.1) ||
  (a.1 == b.1 && (decide (a.2.1 < b.2.1) ||
    (a.2.1 == b.2.1 && decide (a.2.2 < b.2.2))))

/-- Stable descending insertion (Python `list.sort(key=..., reverse=True)`):
`x` goes before the first element with a strictly smaller key. -/
def insertDesc (k : (String × Int) → Int × Int × Int) (x : String × Int) :
    List (String × Int) → List (String × Int)
  | [] => [x]
  | y :: ys => if keyLtB (k x) (k y) then y :: insertDesc k x ys else x :: y :: ys

def sortDesc (k : (String × Int) → Int × Int × Int) :
    List (String × Int) → List (String × Int)
  | [] => []
  | x :: xs => insertDesc k x (sortDesc k xs)

/-- Code-point `≤` on strings (Python string comparison, for `sorted`). -/
def charsLe : List Char → List Char → Bool
  | [], _ => true
  | _ :: _, [] => false
  | c :: cs, d :: ds => if c = d then charsLe cs ds else decide (c < d)

def insertAsc (x : String) : List String → List String
  | [] => [x]
  | y :: ys => if charsLe x.toList y.toList then x :: y :: ys else y :: insertAsc x ys

def sortStrings : List String → List String
  | [] => []
  | x :: xs => insertAsc x (sortStrings xs)

/-- `extrair_awards_jogadores` (lines 106-289): returns the sorted category
rankings, the image map and the sorted distinct-name list. -/
def extrair_awards_jogadores (players : List PlayerRec) :
    List (String × List (String × Int)) × List (String × String) × List String :=
  let st := players.foldl processRecord aggInit
  let k := chave_ordenacao st.dadosJog st.dadosGol
  ((buildCats st.dadosJog st.dadosGol).map (fun cl => (cl.1, sortDesc k cl.2)),
   st.imagens, sortStrings st.nomes)

/-! ### Spec-side helpers for the claims -/

/-- Team lists of a successful draw. -/
def drawTeams : Except String DrawRes → List (List String)
  | .ok (.payload p) => p.times.map (·.jogadores)
  | _ => []

/-- `time_5` of a successful draw. -/
def drawTime5 : Except String DrawRes → List String
  | .ok (.payload p) => p.time_5
  | _ => []

/-- A concrete shuffle outcome: bring the named players, in the given order,
to the front (a permutation of the input whenever both lists have no
duplicates). -/
def promote (ns : List String) (l : List String) : List String :=
  ns.filter (l.contains ·) ++ l.filter (fun x => !ns.contains x)

def shuffleId : Shuffles := ⟨id, id, id, id, id, id, id⟩

/-- Shuffle outcome that places the restricted players Arnaldo and Kelvin on
the first team (all four teams then have 5 members, so the repair move has
nowhere to put the removed player). -/
def shuffleDropCase : Shuffles :=
  { zag := id, mei := promote ["Adelson", "Vini"], ata := promote ["Arnaldo", "Kelvin"],
    resetRestr := id, resetZag := id, resetMei := id, resetAta := id }

/-- Shuffle outcome that yields restricted pairs on two full teams (the
repair loop then ping-pongs for its whole 50-attempt budget), and whose
reset-phase attacker reshuffle puts Kelvin and Vertinho first. -/
def shuffleResetCase : Shuffles :=
  { zag := id, mei := promote ["Adelson"], ata := promote ["Arnaldo", "Kelvin", "Vertinho"],
    resetRestr := id, resetZag := id, resetMei := id,
    resetAta := promote ["Kelvin", "Vertinho"] }

/-- The ZAG bucket produced from an empty backing file. -/
def zagBucket : List String :=
  ["Ronald", "Luiz Kelvin", "Kawa Messi", "Henrique", "Cabinha", "Weslly", "Guilherme",
   "Samuel", "Lito", "Caio", "Luiz"]

/-- The MEI bucket produced from an empty backing file. -/
def meiBucket : List String := ["Tavares", "Adelson", "Vini"]

/-- The ATA bucket produced from an empty backing file. -/
def ataBucket : List String :=
  ["Arnaldo", "Vertinho", "Nilson", "Jonis", "Deyvde", "Kelvin", "Andrew", "Luan",
   "Matador", "Israel", "Arthur"]

/-- C1: the claim asserts that every draw from a readable backing file yields
4 teams of exactly 5 players, with `time_5` exactly the remaining roster and
the union of the 5 groups equal to the 25-name roster, on every path
including the repair loop.  Evaluating `sortear_times` on a readable (empty)
file and a genuine permutation outcome of the three bucket shuffles refutes
this: the repair loop removes the restricted player Arnaldo from the first
team and, all other teams being full, drops him without re-placing him, so
the first team ends with 4 players and `time_5` with 6 — the quota part of
the claim fails on the constraint-repair path (matching the source at
`app.py` lines 341-362, where a removed player is lost when no team has
space). -/
theorem sortear_times_repair_path_team_of_four :
    (drawTeams (sortear_times (some "") shuffleDropCase)).map List.length = [4, 5, 5, 5] ∧
    drawTime5 (sortear_times (some "") shuffleDropCase) =
      ["Arnaldo", "Caio", "Matador", "Israel", "Luiz", "Arthur"] ∧
    (shuffleDropCase.mei meiBucket).Perm meiBucket ∧
    (shuffleDropCase.ata ataBucket).Perm ataBucket ∧
    bucketize ((resolveSemGo (parse_mongodb_json "") jogadores_sem_posicao
        tabelaBase).toOption.getD []) = (zagBucket, meiBucket, ataBucket) := by
  refine ⟨?_, ?_, ?_, ?_, ?_⟩ <;> decide

/-- C2: the claim asserts that no team of a draw result ever holds two
members of the restricted group {Arnaldo, Kelvin, Tavares, Vertinho}, even
after the 50-attempt repair budget is exhausted and the reset redistribution
runs.  Evaluating `sortear_times` on a readable (empty) file and genuine
permutation outcomes refutes it: the repair loop spends its 50 attempts
ping-ponging restricted players between two full teams, the reset branch
then re-pools the restricted players it has just assigned one-per-team
(`app.py` lines 389-405 re-collect and reshuffle them with everyone else),
and the reshuffled attacker bucket puts Kelvin and Vertinho both on team 1
of the final payload. -/
theorem sortear_times_reset_path_two_restricted_on_team :
    ((drawTeams (sortear_times (some "") shuffleResetCase)).headD []).filter isRestrito =
      ["Kelvin", "Vertinho"] ∧
    isRestrito "Kelvin" = true ∧ isRestrito "Vertinho" = true ∧
    (shuffleResetCase.mei meiBucket).Perm meiBucket ∧
    (shuffleResetCase.ata ataBucket).Perm ataBucket ∧
    (shuffleResetCase.resetAta
        ["Kelvin", "Nilson", "Jonis", "Deyvde", "Vertinho", "Andrew", "Luan"]).Perm
      ["Kelvin", "Nilson", "Jonis", "Deyvde", "Vertinho", "Andrew", "Luan"] := by
  refine ⟨?_, ?_, ?_, ?_, ?_, ?_⟩ <;> decide

/-! ### Concrete counterexample inputs -/

/-- Two concatenated top-level JSON objects, both with `fullName`, not
separated by a newline. -/
def c4Input : String := "\x7b\"fullName\":\"A\"\x7d\x7b\"fullName\":\"B\"\x7d"

/-- C4 counterexample: the claim predicts one record per concatenated
object; but the scanner is line-based, and for two objects concatenated on
one line it buffers the whole line, `json.loads` fails on it, and the
whole-text fallback fails too, so the parser returns no records at all. -/
theorem parse_mongodb_json_same_line_concat_empty :
    c4Input = "\x7b\"fullName\":\"A\"\x7d" ++ "\x7b\"fullName\":\"B\"\x7d" ∧
    json_loads "\x7b\"fullName\":\"A\"\x7d".toList = some (.obj [("fullName", .str "A")]) ∧
    json_loads "\x7b\"fullName\":\"B\"\x7d".toList = some (.obj [("fullName", .str "B")]) ∧
    parse_mongodb_json c4Input = [] := by
  refine ⟨rfl, rfl, rfl, rfl⟩

/-- C5 counterexample: for input `{"a": 1}` the line scanner collects
nothing (the object lacks `fullName`), so the whole-text fallback runs and
returns the mapping unfiltered — the output contains an element without a
`fullName` key. -/
theorem parse_mongodb_json_fallback_keeps_no_fullname :
    parse_mongodb_json "\x7b\"a\": 1\x7d" = [Json.obj [("a", Json.int 1)]] ∧
    jsonHasFullName (Json.obj [("a", Json.int 1)]) = false := by
  exact ⟨rfl, rfl⟩

def c8Rec1 : Json := Json.obj [("fullName", .str "Luiz Kelvin"), ("position", .str "Zagueiro")]

def c8Rec2 : Json := Json.obj [("fullName", .str "Luiz"), ("position", .str "Atacante")]

/-- C8 counterexample: the record list holds a record whose trimmed full
name equals the query `"Luiz"` case-insensitively (the second one, an
attacker), yet the resolver returns `ZAG`, the position of the *first*
record, which matches only by token containment: exact equality does not
take priority over token-containment matches against earlier records —
both checks run per candidate inside one pass (`app.py` lines 104-115). -/
theorem buscar_posicao_exact_match_loses_to_earlier_token_match :
    buscar_posicao_jogador "Luiz" [c8Rec1, c8Rec2] = .ok (some "ZAG") ∧
    getStrStripped c8Rec2 "fullName" = .ok "Luiz" ∧
    lowerS "Luiz" = lowerS (pyStrip "Luiz") ∧
    extrair_posicao_normalizada c8Rec2 = .ok "ATA" ∧
    "ZAG" ≠ "ATA" := by
  refine ⟨rfl, rfl, rfl, rfl, by decide⟩

/-- C9 counterexample: for the input text `{"fullName": 1}` the parser keeps
the record, and `sortear_times` — whose position-resolution loop runs
*outside* its `try` block — then applies `.strip()` to the integer
`fullName`, so an `AttributeError` escapes to the caller: an exception does
propagate for this input text. -/
theorem sortear_times_raises_on_nonstring_fullname :
    parse_mongodb_json "\x7b\"fullName\": 1\x7d" = [Json.obj [("fullName", Json.int 1)]] ∧
    sortear_times (some "\x7b\"fullName\": 1\x7d") shuffleId = .error "AttributeError" := by
  exact ⟨rfl, rfl⟩

def c3Entry : TeamEntry := ⟨"A", [], [("totalGoals", .jint (-3))]⟩

def c3Rec : PlayerRec :=
  { fullName := some "Ana", position := none, imagePlayer := none,
    teamCode := some "A", includedTeams := [c3Entry] }

/-- C3 counterexample: the record's own matching `includedTeams` entry
carries `totalGoals = -3`, but the aggregate holds no `totalGoals` value for
the player at all (the source ignores non-positive values,
`gerar_ranking.py` lines 210-212), so the aggregated stat does not equal the
matching entry's value as the claim states. -/
theorem extrair_awards_ignores_nonpositive_matching_value :
    matchEntry c3Rec = some c3Entry ∧
    alookup c3Entry.stats "totalGoals" = some (.jint (-3)) ∧
    (extrair_awards_jogadores [c3Rec]).1 = [] := by
  exact ⟨rfl, rfl, rfl⟩

def c6GkRec : PlayerRec :=
  { fullName := some "Bob", position := some "Goleiro", imagePlayer := none,
    teamCode := some "A",
    includedTeams := [⟨"A", [], [("totalWins", .jint 5)]⟩] }

def c6AtaRec : PlayerRec :=
  { fullName := some "Bob", position := some "Atacante", imagePlayer := none,
    teamCode := some "A",
    includedTeams := [⟨"A", [("craque", .jint 2)], []⟩] }

/-- C6 counterexample: `"Bob"` is the name of a record classified as
goalkeeper, yet it appears in the `craque` award category — the exclusion is
per classified record, not per name, so a name shared with a non-goalkeeper
record still reaches the award categories. -/
theorem goalkeeper_name_in_award_category_via_duplicate :
    isGoleiro c6GkRec = true ∧
    nomeOf c6GkRec = "Bob" ∧
    categorias_awards.contains "craque" = true ∧
    alookup (extrair_awards_jogadores [c6GkRec, c6AtaRec]).1 "craque" =
      some [("Bob", 2)] := by
  exact ⟨rfl, rfl, rfl, rfl⟩

/-! ### C5 (amended): the line-scanner pass only collects `fullName` records -/

theorem processLine_players_fullName (st : PState) (line : List Char)
    (h : ∀ j ∈ st.players, jsonHasFullName j = true) :
    ∀ j ∈ (processLine st line).players, jsonHasFullName j = true := by
  intro j hj
  unfold processLine at hj
  dsimp only at hj
  split at hj
  · exact h j hj
  · split at hj
    · split at hj
      · split at hj
        · rcases List.mem_append.mp hj with h1 | h2
          · exact h j h1
          · rename_i _ hfn
            rw [List.mem_singleton.mp h2]
            exact hfn
        · exact h j hj
      · exact h j hj
    · exact h j hj

theorem foldl_processLine_fullName (lines : List (List Char)) :
    ∀ st : PState, (∀ j ∈ st.players, jsonHasFullName j = true) →
    ∀ j ∈ (lines.foldl processLine st).players, jsonHasFullName j = true := by
  induction lines with
  | nil => intro st h; exact h
  | cons l ls ih =>
    intro st h
    exact ih (processLine st l) (processLine_players_fullName st l h)

/-- C5 (amended): every element collected by the line-scanning pass is a
mapping with a `fullName` key; so whenever the scanner collects at least one
record, every element of the parser's output has `fullName`.  The claim as
stated fails only on the whole-text fallback, which returns unfiltered
mappings (see the counterexample theorem). -/
theorem parse_scannerpass_only_fullName (content : String)
    (h : (scanPhase (mongoSubs content.toList)).players.isEmpty = false) :
    ∀ j ∈ parse_mongodb_json content, jsonHasFullName j = true := by
  intro j hj
  unfold parse_mongodb_json at hj
  dsimp only at hj
  rw [h] at hj
  simp only [Bool.false_eq_true, if_false] at hj
  exact foldl_processLine_fullName _ pInit (by intro x hx; simp [pInit] at hx) j hj

/-- Witness: the C5 theorem applied at a concrete input whose scanner pass
collects one record. -/
theorem parse_scannerpass_only_fullName_witness :
    jsonHasFullName (Json.obj [("fullName", Json.str "A")]) = true := by
  apply parse_scannerpass_only_fullName "\x7b\"fullName\": \"A\"\x7d" rfl
  rw [show parse_mongodb_json "\x7b\"fullName\": \"A\"\x7d" =
        [Json.obj [("fullName", Json.str "A")]] from rfl]
  exact List.mem_singleton_self _

/-! ### C10: every position code in a successful draw payload is ZAG/MEI/ATA -/

def isCode (s : String) : Bool := s == "ZAG" || s == "MEI" || s == "ATA"

/-- All values of a position table are three-letter codes. -/
def tblOkB (tbl : List (String × String)) : Bool := tbl.all (fun kv => isCode kv.2)

def posMapOkB (d : List (String × String)) : Bool := d.all (fun kv => isCode kv.2)

def payloadPosOk (p : Payload) : Bool :=
  posMapOkB p.posicoes && p.times.all (fun t => posMapOkB t.posicoes)

/-- The decidable statement of C10 over a draw outcome: failed draws are
vacuously fine, successful payloads must carry only the three codes. -/
def drawPosOk : Except String DrawRes → Bool
  | .ok (.payload p) => payloadPosOk p
  | _ => true

theorem bindErrE {α β : Type} (e : String) (f : α → Except String β) :
    (Except.error e >>= f) = Except.error e := rfl

theorem bindOkE {α β : Type} (a : α) (f : α → Except String β) :
    (Except.ok a >>= f) = f a := rfl

theorem pureE {α : Type} (a : α) : (pure a : Except String α) = Except.ok a := rfl

theorem normalizar_posicao_isCode (p : String) : isCode (normalizar_posicao p) = true := by
  unfold normalizar_posicao
  split
  · rfl
  · dsimp only
    split
    · rfl
    · split
      · rfl
      · split <;> rfl

theorem aupsert_all {β : Type} (P : String × β → Bool) (k : String) (v : β)
    (d : List (String × β)) (hd : d.all P = true) (hv : P (k, v) = true) :
    (aupsert k v d).all P = true := by
  induction d with
  | nil => simpa [aupsert]
  | cons kv rest ih =>
    simp only [List.all_cons, Bool.and_eq_true] at hd
    unfold aupsert
    split
    · rename_i hk
      rw [show kv.1 = k from by simpa using hk]
      simp [List.all_cons, hd.2, hv]
    · simp [List.all_cons, hd.1, ih hd.2]

theorem alookup_all {β : Type} (P : String × β → Bool) (d : List (String × β))
    (k : String) (v : β) (hd : d.all P = true) (h : alookup d k = some v) :
    ∃ k2, P (k2, v) = true := by
  unfold alookup at h
  rcases hf : d.find? (fun kv => kv.1 == k) with _ | kv
  · rw [hf] at h; exact Option.noConfusion h
  · rw [hf] at h
    simp only [Option.map_some'] at h
    refine ⟨kv.1, ?_⟩
    have hm := List.mem_of_find?_eq_some hf
    have := List.all_eq_true.mp hd _ hm
    rw [← Option.some.inj h]
    simpa using this

/-- The value drawn from a code-valued table (with `'ATA'` default) is a code. -/
theorem tbl_getD_isCode (tbl : List (String × String)) (h : tblOkB tbl = true)
    (j : String) : isCode ((alookup tbl j).getD "ATA") = true := by
  rcases hf : alookup tbl j with _ | v
  · rfl
  · obtain ⟨k2, hk2⟩ := alookup_all _ tbl j v h hf
    simpa using hk2

theorem resolveSemGo_tblOk (players : List Json) (names : List String) :
    ∀ tbl tbl2, tblOkB tbl = true →
    resolveSemGo players names tbl = .ok tbl2 → tblOkB tbl2 = true := by
  induction names with
  | nil =>
    intro tbl tbl2 h heq
    unfold resolveSemGo at heq
    cases heq
    exact h
  | cons nome rest ih =>
    intro tbl tbl2 h heq
    unfold resolveSemGo at heq
    rcases hb : buscar_posicao_jogador nome players with e | r
    · rw [hb, bindErrE] at heq
      exact Except.noConfusion heq
    · rw [hb, bindOkE] at heq
      refine ih _ _ ?_ heq
      rcases r with _ | p
      · dsimp only at heq ⊢
        split
        · exact aupsert_all _ _ _ _ h rfl
        · split
          · exact aupsert_all _ _ _ _ h rfl
          · exact aupsert_all _ _ _ _ h rfl
      · dsimp only at heq ⊢
        split
        · exact aupsert_all _ _ _ _ h (normalizar_posicao_isCode p)
        · split
          · exact aupsert_all _ _ _ _ h rfl
          · split
            · exact aupsert_all _ _ _ _ h rfl
            · exact aupsert_all _ _ _ _ h rfl

/-- Folding team members into a position map keeps it code-valued. -/
theorem foldl_pos_aupsert_ok (tbl : List (String × String)) (h : tblOkB tbl = true)
    (js : List String) :
    ∀ d, posMapOkB d = true →
    posMapOkB (js.foldl (fun d j => aupsert j ((alookup tbl j).getD "ATA") d) d) = true := by
  induction js with
  | nil => intro d hd; exact hd
  | cons j rest ih =>
    intro d hd
    exact ih _ (aupsert_all _ _ _ _ hd (tbl_getD_isCode tbl h j))

/-- The `time_5` position fold (which may consult the resolver) keeps the
map code-valued whenever it succeeds. -/
theorem time5_fold_pos_ok (tbl : List (String × String)) (h : tblOkB tbl = true)
    (players : List Json) (js : List String) :
    ∀ d d2, posMapOkB d = true →
    js.foldlM (fun d j => do
      match alookup tbl j with
      | some v => pure (aupsert j v d)
      | none => do
        let r ← buscar_posicao_jogador j players
        let v := match r with
          | some p => if p ≠ "" then normalizar_posicao p else "ATA"
          | none => "ATA"
        pure (aupsert j v d)) d = Except.ok d2 → posMapOkB d2 = true := by
  induction js with
  | nil =>
    intro d d2 hd heq
    simp only [List.foldlM_nil] at heq
    cases heq
    exact hd
  | cons j rest ih =>
    intro d d2 hd heq
    rw [List.foldlM_cons] at heq
    rcases hl : alookup tbl j with _ | v
    · rw [hl] at heq
      rcases hb : buscar_posicao_jogador j players with e | r
      · rw [hb, bindErrE, bindErrE] at heq
        exact Except.noConfusion heq
      · rw [hb, bindOkE, pureE, bindOkE] at heq
        refine ih _ _ ?_ heq
        rcases r with _ | p
        · exact aupsert_all _ _ _ _ hd rfl
        · dsimp only
          split
          · exact aupsert_all _ _ _ _ hd (normalizar_posicao_isCode p)
          · exact aupsert_all _ _ _ _ hd rfl
    · rw [hl] at heq
      dsimp only at heq
      rw [pureE, bindOkE] at heq
      have hv : isCode v = true := by
        obtain ⟨k2, hk2⟩ := alookup_all _ tbl j v h hl
        simpa using hk2
      exact ih _ _ (aupsert_all _ _ _ _ hd hv) heq

theorem bind_payload_posOk (x : Except String (List (String × String)))
    (hx : ∀ d2, x = .ok d2 → posMapOkB d2 = true)
    (mk : List (String × String) → Payload)
    (hmk : ∀ d2, posMapOkB d2 = true → payloadPosOk (mk d2) = true) :
    drawPosOk (x >>= fun d2 => pure (DrawRes.payload (mk d2))) = true := by
  cases x with
  | error e => rfl
  | ok d2 =>
    rw [bindOkE, pureE]
    exact hmk d2 (hx d2 rfl)

theorem buildPayload_posOk (tbl : List (String × String)) (htbl : tblOkB tbl = true)
    (players : List Json) (timesF : List (List String)) (todosF : List String) :
    drawPosOk (buildPayload tbl players timesF todosF) = true := by
  unfold buildPayload
  refine bind_payload_posOk _ ?_ _ ?_
  · intro d2 h2
    refine time5_fold_pos_ok tbl htbl players _ _ d2 ?_ h2
    exact foldl_pos_aupsert_ok tbl htbl _ [] rfl
  · intro d2 h2
    unfold payloadPosOk
    rw [Bool.and_eq_true]
    refine ⟨h2, ?_⟩
    rw [List.all_eq_true]
    intro t ht
    simp only [List.mem_map] at ht
    obtain ⟨it, _, rfl⟩ := ht
    exact foldl_pos_aupsert_ok tbl htbl _ [] rfl

/-- C10: in every successful draw payload, every position code in the
top-level `posicoes` mapping and in each team's `posicoes` mapping is one of
ZAG/MEI/ATA: team members' codes come from the resolved hardcoded table
(whose values are all codes, including after the `jogadores_sem_posicao`
updates, which insert only `normalizar_posicao` outputs or literal codes),
and `time_5` members fall back to the looser normalizer or the `'ATA'`
default — the raw labels `extrair_posicao_normalizada` can return never
reach the output. -/
theorem sortear_times_positions_are_codes (file : Option String) (sh : Shuffles) :
    drawPosOk (sortear_times file sh) = true := by
  cases file with
  | none => rfl
  | some content =>
    simp only [sortear_times]
    rcases ht : resolveSemGo (parse_mongodb_json content) jogadores_sem_posicao tabelaBase
      with e | tbl
    · rw [bindErrE]
      rfl
    · rw [bindOkE]
      have htbl : tblOkB tbl = true :=
        resolveSemGo_tblOk (parse_mongodb_json content) jogadores_sem_posicao tabelaBase tbl
          (by decide) ht
      exact buildPayload_posOk tbl htbl _ _ _

/-! ### C7: each category ranking is sorted by the composite key -/

theorem keyLtB_asymm (a b : Int × Int × Int) (h : keyLtB a b = true) :
    keyLtB b a = false := by
  rw [Bool.eq_false_iff]
  intro h2
  simp only [keyLtB, Bool.or_eq_true, Bool.and_eq_true, decide_eq_true_eq, beq_iff_eq]
    at h h2
  omega

theorem chain'_insertDesc (k : (String × Int) → Int × Int × Int) (x : String × Int)
    (l : List (String × Int))
    (h : List.Chain' (fun a b => keyLtB (k a) (k b) = false) l) :
    List.Chain' (fun a b => keyLtB (k a) (k b) = false) (insertDesc k x l) := by
  induction l with
  | nil => simp [insertDesc]
  | cons y ys ih =>
    unfold insertDesc
    rcases hxy : keyLtB (k x) (k y) with _ | _
    · simp only [Bool.false_eq_true, if_false]
      exact List.Chain'.cons (by rw [Bool.eq_false_iff]; intro hc; rw [hxy] at hc; cases hc)
        h
    · simp only [if_true]
      have htail := ih (h.tail)
      refine List.chain'_cons'.mpr ⟨?_, htail⟩
      intro z hz
      rcases ys with _ | ⟨w, ws⟩
      · simp only [insertDesc, List.head?_cons, Option.mem_def, Option.some.injEq] at hz
        rw [← hz]
        exact keyLtB_asymm _ _ hxy
      · unfold insertDesc at hz
        rcases hxw : keyLtB (k x) (k w) with _ | _
        · rw [hxw] at hz
          simp only [Bool.false_eq_true, if_false, List.head?_cons, Option.mem_def,
            Option.some.injEq] at hz
          rw [← hz]
          exact keyLtB_asymm _ _ hxy
        · rw [hxw] at hz
          simp only [if_true, List.head?_cons, Option.mem_def, Option.some.injEq] at hz
          rw [← hz]
          exact (List.chain'_cons.mp h).1

theorem chain'_sortDesc (k : (String × Int) → Int × Int × Int) (l : List (String × Int)) :
    List.Chain' (fun a b => keyLtB (k a) (k b) = false) (sortDesc k l) := by
  induction l with
  | nil => simp [sortDesc]
  | cons x xs ih => exact chain'_insertDesc k x _ ih

theorem alookup_map_snd {β γ : Type} (f : β → γ) (l : List (String × β)) (c : String) :
    alookup (l.map (fun kv => (kv.1, f kv.2))) c = (alookup l c).map f := by
  induction l with
  | nil => rfl
  | cons kv rest ih =>
    unfold alookup at ih ⊢
    rcases h : (kv.1 == c) with _ | _
    · rw [List.map_cons, List.find?_cons_of_neg _ (by simpa using h),
        List.find?_cons_of_neg _ (by simpa using h)]
      exact ih
    · rw [List.map_cons, List.find?_cons_of_pos _ (by simpa using h),
        List.find?_cons_of_pos _ (by simpa using h)]
      rfl

/-- The adjacency property claimed for a ranking list: total non-increasing,
then wins non-increasing, then matches-played non-decreasing, with the
tie-break values resolved exactly as `chave_ordenacao` resolves them. -/
def c7rel (jog gol : Dados) (e1 e2 : String × Int) : Prop :=
  e2.2 ≤ e1.2 ∧
  (e1.2 = e2.2 → (tieLookup jog gol e2.1).1 ≤ (tieLookup jog gol e1.1).1) ∧
  (e1.2 = e2.2 → (tieLookup jog gol e1.1).1 = (tieLookup jog gol e2.1).1 →
    (tieLookup jog gol e1.1).2 ≤ (tieLookup jog gol e2.1).2)

theorem keyLtB_false_c7rel (jog gol : Dados) (e1 e2 : String × Int)
    (h : keyLtB (chave_ordenacao jog gol e1) (chave_ordenacao jog gol e2) = false) :
    c7rel jog gol e1 e2 := by
  have h2 : ¬ (keyLtB (chave_ordenacao jog gol e1) (chave_ordenacao jog gol e2) = true) := by
    rw [h]; simp
  simp only [keyLtB, chave_ordenacao, Bool.or_eq_true, Bool.and_eq_true,
    decide_eq_true_eq, beq_iff_eq, not_or, not_and, not_lt] at h2
  unfold c7rel
  refine ⟨?_, ?_, ?_⟩
  · omega
  · intro he; omega
  · intro he hw; omega

/-- C7: in every per-category ranking list produced by the aggregator, each
adjacent pair is ordered by the composite key: the earlier total is ≥ the
later; on equal totals the earlier tie-break wins value is ≥ the later; on
equal totals and wins the earlier tie-break matches-played value is ≤ the
later (tie-break values resolved through `chave_ordenacao`'s lookup). -/
theorem extrair_awards_rankings_sorted (players : List PlayerRec) (c : String)
    (l : List (String × Int))
    (h : alookup (extrair_awards_jogadores players).1 c = some l) :
    List.Chain' (c7rel (players.foldl processRecord aggInit).dadosJog
      (players.foldl processRecord aggInit).dadosGol) l := by
  unfold extrair_awards_jogadores at h
  dsimp only at h
  rw [alookup_map_snd] at h
  rcases h0 : alookup (buildCats (players.foldl processRecord aggInit).dadosJog
      (players.foldl processRecord aggInit).dadosGol) c with _ | l0
  · rw [h0] at h
    exact Option.noConfusion h
  · rw [h0] at h
    simp only [Option.map_some'] at h
    rw [← Option.some.inj h]
    exact (chain'_sortDesc _ l0).imp (fun a b hab => keyLtB_false_c7rel _ _ a b hab)

def c7WitnessPlayer : PlayerRec :=
  { fullName := some "Ana", position := some "Zagueira", imagePlayer := none,
    teamCode := some "A",
    includedTeams := [⟨"A", [("craque", .jint 2)], [("totalGoals", .jint 3)]⟩] }

/-- Witness: the C7 theorem applied at a concrete aggregation. -/
theorem extrair_awards_rankings_sorted_witness :
    List.Chain' (c7rel ([c7WitnessPlayer].foldl processRecord aggInit).dadosJog
      ([c7WitnessPlayer].foldl processRecord aggInit).dadosGol) [("Ana", 3)] :=
  extrair_awards_rankings_sorted [c7WitnessPlayer] "totalGoals" [("Ana", 3)] rfl

/-! ### C8 (amended): the resolver returns the first record matching exactly
or by token containment -/

/-- A record field that Python could `.strip()` without raising: the record
is a mapping and the field is absent or a string. -/
def strOrAbsent (p : Json) (k : String) : Bool :=
  match p with
  | .obj fs =>
    match alookup fs k with
    | some (.str _) => true
    | some _ => false
    | none => true
  | _ => false

/-- A record on which the resolver's field accesses cannot raise. -/
def wellFormedB (p : Json) : Bool :=
  strOrAbsent p "fullName" && strOrAbsent p "position" && strOrAbsent p "prizeDrawPosition"

theorem getStrStripped_ok_of_strOrAbsent (p : Json) (k : String)
    (h : strOrAbsent p k = true) : ∃ s, getStrStripped p k = .ok s := by
  rcases p with _ | b | n | s | es | fs
  · exact Bool.noConfusion h
  · exact Bool.noConfusion h
  · exact Bool.noConfusion h
  · exact Bool.noConfusion h
  · exact Bool.noConfusion h
  · unfold strOrAbsent at h
    dsimp only at h
    unfold getStrStripped
    rw [show pyGet (Json.obj fs) k (Json.str "") = Except.ok ((alookup fs k).getD (Json.str ""))
      from rfl, bindOkE]
    rcases hl : alookup fs k with _ | v
    · exact ⟨"", rfl⟩
    · rw [hl] at h
      rcases v with _ | b | n | s | es2 | fs2
      · exact Bool.noConfusion h
      · exact Bool.noConfusion h
      · exact Bool.noConfusion h
      · exact ⟨pyStrip s, rfl⟩
      · exact Bool.noConfusion h
      · exact Bool.noConfusion h

theorem extrair_ok_of_wellFormed (p : Json) (h : wellFormedB p = true) :
    ∃ v, extrair_posicao_normalizada p = .ok v := by
  unfold wellFormedB at h
  simp only [Bool.and_eq_true] at h
  obtain ⟨s1, h1⟩ := getStrStripped_ok_of_strOrAbsent p "position" h.1.2
  obtain ⟨s2, h2⟩ := getStrStripped_ok_of_strOrAbsent p "prizeDrawPosition" h.2
  unfold extrair_posicao_normalizada
  rw [h1, bindOkE, h2, bindOkE]
  exact ⟨normalizeExtrLabel s1 s2, rfl⟩

/-- The combined per-candidate condition of the resolver's first loop:
exact full-name equality or all-query-tokens containment. -/
def loop1HitB (nome : String) (p : Json) : Bool :=
  match getStrStripped p "fullName" with
  | .ok fn =>
    let fl := lowerS fn
    let nomeNorm := lowerS (pyStrip nome)
    let palavras := pySplitWs nomeNorm
    fl == nomeNorm || (!palavras.isEmpty && palavras.all (fun w => containsSub w fl))
  | .error _ => false

/-- Exact-match condition of the claim's premise. -/
def exactMatchB (nome : String) (p : Json) : Bool :=
  match getStrStripped p "fullName" with
  | .ok fn => lowerS fn == lowerS (pyStrip nome)
  | .error _ => false

theorem mapOkE {α β : Type} (f : α → β) (a : α) :
    (f <$> (Except.ok a : Except String α)) = Except.ok (f a) := rfl

theorem buscarLoop1_of_find? (nome : String) (players : List Json)
    (hw : players.all wellFormedB = true) :
    (∀ r, players.find? (loop1HitB nome) = some r →
      ∃ v, extrair_posicao_normalizada r = .ok v ∧
        buscarLoop1 (lowerS (pyStrip nome)) (pySplitWs (lowerS (pyStrip nome))) players =
          .ok (some v)) ∧
    (players.find? (loop1HitB nome) = none →
      buscarLoop1 (lowerS (pyStrip nome)) (pySplitWs (lowerS (pyStrip nome))) players =
        .ok none) := by
  induction players with
  | nil =>
    refine ⟨fun r hr => Option.noConfusion hr, fun _ => rfl⟩
  | cons p rest ih =>
    simp only [List.all_cons, Bool.and_eq_true] at hw
    obtain ⟨hwp, hwrest⟩ := hw
    have ihr := ih hwrest
    obtain ⟨fn, hfn⟩ := getStrStripped_ok_of_strOrAbsent p "fullName"
      (by unfold wellFormedB at hwp; simp only [Bool.and_eq_true] at hwp; exact hwp.1.1)
    have hunfold : buscarLoop1 (lowerS (pyStrip nome)) (pySplitWs (lowerS (pyStrip nome)))
        (p :: rest) =
        (if lowerS fn = lowerS (pyStrip nome) then
          some <$> extrair_posicao_normalizada p
        else if !(pySplitWs (lowerS (pyStrip nome))).isEmpty &&
            (pySplitWs (lowerS (pyStrip nome))).all
              (fun w => containsSub w (lowerS fn)) then
          some <$> extrair_posicao_normalizada p
        else buscarLoop1 (lowerS (pyStrip nome)) (pySplitWs (lowerS (pyStrip nome))) rest) := by
      conv_lhs => rw [buscarLoop1]
      rw [hfn, bindOkE]
    have hhit : loop1HitB nome p =
        ((lowerS fn == lowerS (pyStrip nome)) ||
          (!(pySplitWs (lowerS (pyStrip nome))).isEmpty &&
            (pySplitWs (lowerS (pyStrip nome))).all
              (fun w => containsSub w (lowerS fn)))) := by
      unfold loop1HitB
      rw [hfn]
    constructor
    · intro r hr
      rw [List.find?_cons] at hr
      rcases hcond : loop1HitB nome p with _ | _
      · rw [hcond] at hr
        obtain ⟨v, hv, hb⟩ := ihr.1 r hr
        refine ⟨v, hv, ?_⟩
        rw [hunfold]
        rw [hhit] at hcond
        simp only [Bool.or_eq_false_iff] at hcond
        rw [if_neg (by simpa using hcond.1), if_neg (by simp [hcond.2])]
        exact hb
      · rw [hcond] at hr
        have hrp : r = p := (Option.some.inj hr).symm
        subst hrp
        obtain ⟨v, hv⟩ := extrair_ok_of_wellFormed r hwp
        refine ⟨v, hv, ?_⟩
        rw [hunfold]
        rw [hhit] at hcond
        rcases heq : (lowerS fn == lowerS (pyStrip nome)) with _ | _
        · rw [heq] at hcond
          simp only [Bool.false_or] at hcond
          rw [if_neg (by simpa using heq), if_pos hcond, hv, mapOkE]
        · rw [if_pos (by simpa using heq), hv, mapOkE]
    · intro hr
      rw [List.find?_cons] at hr
      rcases hcond : loop1HitB nome p with _ | _
      · rw [hcond] at hr
        rw [hunfold]
        rw [hhit] at hcond
        simp only [Bool.or_eq_false_iff] at hcond
        rw [if_neg (by simpa using hcond.1), if_neg (by simp [hcond.2])]
        exact ihr.2 hr
      · rw [hcond] at hr
        exact Option.noConfusion hr

/-- C8 (amended): whenever some record's trimmed full name equals the
trimmed query case-insensitively (and the records are well-typed), the
resolver returns the normalized position of the *first* record in list order
that matches exactly or by token containment — exact matches guarantee a
result, but they take priority only within a single candidate, not across
candidates (an earlier token-containment match wins over a later exact
match, see the counterexample). -/
theorem buscar_posicao_returns_first_pass_match (nome : String) (players : List Json)
    (hw : players.all wellFormedB = true)
    (hex : ∃ p ∈ players, exactMatchB nome p = true) :
    ∃ r v, players.find? (loop1HitB nome) = some r ∧
      extrair_posicao_normalizada r = .ok v ∧
      buscar_posicao_jogador nome players = .ok (some v) := by
  have hsome : (players.find? (loop1HitB nome)).isSome := by
    rw [List.find?_isSome]
    obtain ⟨p, hp, he⟩ := hex
    refine ⟨p, hp, ?_⟩
    unfold exactMatchB at he
    unfold loop1HitB
    rcases hg : getStrStripped p "fullName" with e | fn
    · rw [hg] at he
      exact Bool.noConfusion he
    · rw [hg] at he
      dsimp only at he ⊢
      rw [he]
      rfl
  obtain ⟨r, hr⟩ := Option.isSome_iff_exists.mp hsome
  obtain ⟨v, hv, hb⟩ := (buscarLoop1_of_find? nome players hw).1 r hr
  refine ⟨r, v, hr, hv, ?_⟩
  unfold buscar_posicao_jogador
  dsimp only
  rw [hb, bindOkE]
  rfl

def c8wRec : Json := Json.obj [("fullName", .str "Ana"), ("position", .str "Zagueiro")]

/-- Witness: the C8 theorem applied to a one-record list with an exact
match. -/
theorem buscar_posicao_returns_first_pass_match_witness :
    buscar_posicao_jogador "Ana" [c8wRec] = .ok (some "ZAG") := by
  obtain ⟨r, v, h1, h2, h3⟩ := buscar_posicao_returns_first_pass_match "Ana" [c8wRec]
    (by decide) ⟨c8wRec, List.mem_cons_self _ _, by decide⟩
  have hr : c8wRec = r :=
    Option.some.inj
      ((show List.find? (loop1HitB "Ana") [c8wRec] = some c8wRec from rfl).symm.trans h1)
  subst hr
  have hv : "ZAG" = v :=
    Except.ok.inj
      ((show extrair_posicao_normalizada c8wRec = Except.ok "ZAG" from rfl).symm.trans h2)
  subst hv
  exact h3

/-! ### C9 (amended): error handling of the draw and the parser -/

theorem buscarLoop2_ok_of_wf (w0 : String) (players : List Json)
    (hw : players.all wellFormedB = true) :
    ∃ r, buscarLoop2 w0 players = .ok r := by
  induction players with
  | nil => exact ⟨none, rfl⟩
  | cons p rest ih =>
    simp only [List.all_cons, Bool.and_eq_true] at hw
    obtain ⟨fn, hfn⟩ := getStrStripped_ok_of_strOrAbsent p "fullName"
      (by unfold wellFormedB at hw; simp only [Bool.and_eq_true] at hw; exact hw.1.1.1)
    have hunfold : buscarLoop2 w0 (p :: rest) =
        (if pyStartsWith (lowerS fn) w0 || containsSub w0 (lowerS fn) then
          some <$> extrair_posicao_normalizada p
        else buscarLoop2 w0 rest) := by
      conv_lhs => rw [buscarLoop2]
      rw [hfn, bindOkE]
    rw [hunfold]
    split
    · obtain ⟨v, hv⟩ := extrair_ok_of_wellFormed p hw.1
      exact ⟨some v, by rw [hv, mapOkE]⟩
    · exact ih hw.2

theorem buscar_ok_of_wf (nome : String) (players : List Json)
    (hw : players.all wellFormedB = true) :
    ∃ r, buscar_posicao_jogador nome players = .ok r := by
  have h1 := buscarLoop1_of_find? nome players hw
  rcases hf : players.find? (loop1HitB nome) with _ | r
  · have hb := h1.2 hf
    unfold buscar_posicao_jogador
    dsimp only
    rw [hb, bindOkE]
    rcases hp : pySplitWs (lowerS (pyStrip nome)) with _ | ⟨w0, ws⟩
    · exact ⟨none, rfl⟩
    · exact buscarLoop2_ok_of_wf w0 players hw
  · obtain ⟨v, _, hb⟩ := h1.1 r hf
    refine ⟨some v, ?_⟩
    unfold buscar_posicao_jogador
    dsimp only
    rw [hb, bindOkE]
    rfl

theorem resolveSemGo_ok_of_wf (players : List Json) (hw : players.all wellFormedB = true) :
    ∀ (names : List String) (tbl : List (String × String)),
    ∃ tbl2, resolveSemGo players names tbl = .ok tbl2 := by
  intro names
  induction names with
  | nil => exact fun tbl => ⟨tbl, rfl⟩
  | cons nome rest ih =>
    intro tbl
    obtain ⟨r, hb⟩ := buscar_ok_of_wf nome players hw
    unfold resolveSemGo
    rw [hb, bindOkE]
    exact ih _

theorem buildPayload_fold_ok_of_wf (tbl : List (String × String)) (players : List Json)
    (hw : players.all wellFormedB = true) (js : List String) :
    ∀ d, ∃ d2, js.foldlM (fun d j => do
      match alookup tbl j with
      | some v => pure (aupsert j v d)
      | none => do
        let r ← buscar_posicao_jogador j players
        let v := match r with
          | some p => if p ≠ "" then normalizar_posicao p else "ATA"
          | none => "ATA"
        pure (aupsert j v d)) d = Except.ok d2 := by
  induction js with
  | nil => exact fun d => ⟨d, rfl⟩
  | cons j rest ih =>
    intro d
    rw [List.foldlM_cons]
    rcases hl : alookup tbl j with _ | v
    · dsimp only
      obtain ⟨r, hb⟩ := buscar_ok_of_wf j players hw
      rw [hb, bindOkE, pureE, bindOkE]
      exact ih _
    · dsimp only
      rw [pureE, bindOkE]
      exact ih _

theorem buildPayload_ok_of_wf (tbl : List (String × String)) (players : List Json)
    (hw : players.all wellFormedB = true) (timesF : List (List String))
    (todosF : List String) :
    ∃ p, buildPayload tbl players timesF todosF = .ok (.payload p) := by
  unfold buildPayload
  dsimp only
  obtain ⟨d2, h2⟩ := buildPayload_fold_ok_of_wf tbl players hw
    (todosF.filter (fun j => !(timesF.flatten).contains j))
    ((timesF.flatten).foldl (fun d j => aupsert j ((alookup tbl j).getD "ATA") d) [])
  rw [h2, bindOkE, pureE]
  exact ⟨_, rfl⟩

/-- Decidable statement that the parser drops a balanced buffered fragment:
it either fails to parse or lacks `fullName`. -/
def jskipB (l : List Char) : Bool :=
  match json_loads l with
  | some j => !jsonHasFullName j
  | none => true

theorem splitNlGo_append_nf (bad : List Char) :
    ∀ (acc rest : List Char), (∀ c ∈ bad, c ≠ '\n') →
    splitNlGo acc (bad ++ '\n' :: rest) = (acc.reverse ++ bad) :: splitNlGo [] rest := by
  induction bad with
  | nil =>
    intro acc rest _
    show splitNlGo acc ('\n' :: rest) = (acc.reverse ++ []) :: splitNlGo [] rest
    rw [List.append_nil]
    conv_lhs => rw [splitNlGo]
    rw [if_pos rfl]
  | cons c bad2 ih =>
    intro acc rest hnf
    have hc : c ≠ '\n' := hnf c (List.mem_cons_self _ _)
    rw [List.cons_append]
    conv_lhs => rw [splitNlGo]
    rw [if_neg hc]
    rw [ih (c :: acc) rest (fun d hd => hnf d (List.mem_cons_of_mem _ hd))]
    simp only [List.reverse_cons, List.append_assoc, List.cons_append, List.nil_append]

/-- C9 (amended): a missing/unreadable backing file makes the draw return
the structured `erro` mapping rather than raising; for well-typed record
fields no exception escapes the draw and a payload is produced; and the
line scanner silently skips a buffered fragment that fails to parse (or
lacks `fullName`) and continues unchanged with the remaining input.  The
claim's universal "no exception for any input text" fails only for records
with non-string fields (see the counterexample). -/
theorem sortear_times_error_contract :
    (∀ sh, sortear_times none sh =
      .ok (.erro "Erro ao carregar players.json: arquivo ausente")) ∧
    (∀ (content : String) (sh : Shuffles),
      (parse_mongodb_json content).all wellFormedB = true →
      ∃ p, sortear_times (some content) sh = .ok (.payload p)) ∧
    (∀ (bad rest : List Char), (∀ c ∈ bad, c ≠ '\n') → bad.contains '{' = true →
      scanLine scanInit bad = scanInit → jskipB bad = true →
      scanPhase (bad ++ '\n' :: rest) = scanPhase rest) := by
  refine ⟨fun sh => rfl, ?_, ?_⟩
  · intro content sh hw
    simp only [sortear_times]
    obtain ⟨tbl, ht⟩ := resolveSemGo_ok_of_wf (parse_mongodb_json content) hw
      jogadores_sem_posicao tabelaBase
    rw [ht, bindOkE]
    exact buildPayload_ok_of_wf tbl (parse_mongodb_json content) hw _ _
  · intro bad rest hnf hbrace hscan hskip
    unfold scanPhase
    unfold splitNl
    rw [splitNlGo_append_nf bad [] rest hnf]
    rw [List.reverse_nil, List.nil_append, List.foldl_cons]
    have hmem : '{' ∈ bad := by simpa using hbrace
    have hstep : processLine pInit bad = pInit := by
      unfold processLine
      rw [if_neg (by simp [pInit, hmem])]
      dsimp only [pInit]
      rw [show scanLine scanInit bad = scanInit from hscan]
      rw [if_pos (show scanInit.depth = 0 from rfl)]
      unfold jskipB at hskip
      rcases hj : json_loads bad with _ | j
      · rw [show joinNl ([] ++ [bad]) = bad from rfl, hj]
      · rw [show joinNl ([] ++ [bad]) = bad from rfl, hj]
        rw [hj] at hskip
        simp only [Bool.not_eq_true'] at hskip
        simp only [hskip, Bool.false_eq_true, if_false]
    rw [hstep]

def isPayloadB : Except String DrawRes → Bool
  | .ok (.payload _) => true
  | _ => false

/-- Witness: the C9 theorem applied at concrete inputs for all three
conjuncts. -/
theorem sortear_times_error_contract_witness :
    sortear_times none shuffleId =
      .ok (.erro "Erro ao carregar players.json: arquivo ausente") ∧
    isPayloadB (sortear_times (some "\x7b\"fullName\": \"Ana\"\x7d") shuffleId) = true ∧
    scanPhase ("\x7boops\x7d".toList ++ '\n' :: "\x7b\"fullName\": \"A\"\x7d".toList) =
      scanPhase "\x7b\"fullName\": \"A\"\x7d".toList := by
  refine ⟨sortear_times_error_contract.1 shuffleId, ?_, ?_⟩
  · obtain ⟨p, hp⟩ :=
      sortear_times_error_contract.2.1 "\x7b\"fullName\": \"Ana\"\x7d" shuffleId (by decide)
    rw [hp]
    rfl
  · exact sortear_times_error_contract.2.2 "\x7boops\x7d".toList "\x7b\"fullName\": \"A\"\x7d".toList
      (by decide) (by decide) (by decide) (by decide)

/-! ### C6 (amended): goalkeeper / award-category separation -/

def catGet (cs : Cats) (c : String) : List (String × Int) := (alookup cs c).getD []

theorem catGet_catAppend (k : String) (e : String × Int) (cs : Cats) (c : String) :
    catGet (catAppend k e cs) c = if k = c then catGet cs c ++ [e] else catGet cs c := by
  induction cs with
  | nil =>
    unfold catAppend catGet alookup
    by_cases h : k = c
    · simp [h]
    · simp only [if_neg h]
      rw [List.find?_cons_of_neg _ (by simpa using h)]
  | cons kv rest ih =>
    unfold catAppend
    by_cases hk : kv.1 = k
    · rw [if_pos (by simpa using hk)]
      unfold catGet alookup
      by_cases hc : k = c
      · rw [if_pos hc]
        rw [List.find?_cons_of_pos _ (by simp [hk, hc]),
          List.find?_cons_of_pos _ (by simp [hk, hc])]
        rfl
      · rw [if_neg hc]
        have hkvc : (kv.1 == c) = false := by
          simp only [beq_eq_false_iff_ne, ne_eq]
          rw [hk]
          exact hc
        rw [List.find?_cons_of_neg _ (by simp [hkvc]), List.find?_cons_of_neg _ (by simp [hkvc])]
    · rw [if_neg (by simpa using hk)]
      unfold catGet alookup
      by_cases hkvc : kv.1 = c
      · rw [List.find?_cons_of_pos _ (by simpa using hkvc),
          List.find?_cons_of_pos _ (by simpa using hkvc)]
        by_cases hc : k = c
        · exact absurd (hkvc.trans hc.symm) hk
        · rw [if_neg hc]
      · rw [List.find?_cons_of_neg _ (by simpa using hkvc),
          List.find?_cons_of_neg _ (by simpa using hkvc)]
        exact ih

theorem catGet_mono_catAppend (k : String) (e2 : String × Int) (cs : Cats) (c : String)
    (e : String × Int) (h : e ∈ catGet cs c) : e ∈ catGet (catAppend k e2 cs) c := by
  rw [catGet_catAppend]
  split
  · exact List.mem_append_left _ h
  · exact h

/-- `"goleiro_" ++ x` is never one of the seven award category names. -/
theorem goleiro_prefix_not_award (x : String) :
    categorias_awards.contains ("goleiro_" ++ x) = false := by
  obtain ⟨xl⟩ := x
  rfl

/-- The key a goalkeeper counter lands under is never an award category. -/
theorem golKey_not_award (cat : String) (h : categorias_awards.contains cat = false) :
    categorias_awards.contains (golKey cat) = false := by
  unfold golKey
  split
  · exact goleiro_prefix_not_award cat
  · exact h

theorem catGet_mono_golInner (nome : String) (m : List (String × Int)) :
    ∀ (cs : Cats) (c : String) (e : String × Int),
    e ∈ catGet cs c → e ∈ catGet (m.foldl (golInnerStep nome) cs) c := by
  induction m with
  | nil => exact fun cs c e h => h
  | cons cq m2 ih =>
    intro cs c e h
    rw [List.foldl_cons]
    refine ih _ c e ?_
    unfold golInnerStep
    split
    · split
      · exact h
      · exact catGet_mono_catAppend _ _ cs c e h
    · exact h

theorem catGet_mono_golFold (gol : Dados) :
    ∀ (cs : Cats) (c : String) (e : String × Int),
    e ∈ catGet cs c → e ∈ catGet (gol.foldl golCatStep cs) c := by
  induction gol with
  | nil => exact fun cs c e h => h
  | cons nd rest ih =>
    intro cs c e h
    rw [List.foldl_cons]
    exact ih _ c e (catGet_mono_golInner nd.1 nd.2 cs c e h)

theorem catGet_mono_jogInner (nome : String) (m : List (String × Int)) :
    ∀ (cs : Cats) (c : String) (e : String × Int),
    e ∈ catGet cs c → e ∈ catGet (m.foldl (jogInnerStep nome) cs) c := by
  induction m with
  | nil => exact fun cs c e h => h
  | cons cq m2 ih =>
    intro cs c e h
    rw [List.foldl_cons]
    refine ih _ c e ?_
    unfold jogInnerStep
    split
    · exact catGet_mono_catAppend _ _ cs c e h
    · exact h

/-- Every positive counter of a goalkeeper that is not an award category
ends up under its `golKey` category. -/
theorem catGet_present_golInner (nome : String) (m : List (String × Int))
    (cq : String × Int) (hm : cq ∈ m) (hq : 0 < cq.2)
    (hna : categorias_awards.contains cq.1 = false) :
    ∀ cs : Cats, (nome, cq.2) ∈ catGet (m.foldl (golInnerStep nome) cs) (golKey cq.1) := by
  induction m with
  | nil => cases hm
  | cons cq2 m2 ih =>
    intro cs
    rw [List.foldl_cons]
    rcases List.mem_cons.mp hm with h1 | h2
    · subst h1
      refine catGet_mono_golInner nome m2 _ _ _ ?_
      unfold golInnerStep
      rw [if_pos hq, if_neg (by rw [hna]; simp), catGet_catAppend, if_pos rfl]
      exact List.mem_append_right _ (List.mem_singleton_self _)
    · exact ih h2 _

theorem catGet_present_golFold (gol : Dados) (nd : String × List (String × Int))
    (hnd : nd ∈ gol) (cq : String × Int) (hm : cq ∈ nd.2) (hq : 0 < cq.2)
    (hna : categorias_awards.contains cq.1 = false) :
    ∀ cs : Cats, (nd.1, cq.2) ∈ catGet (gol.foldl golCatStep cs) (golKey cq.1) := by
  induction gol with
  | nil => cases hnd
  | cons nd2 rest ih =>
    intro cs
    rw [List.foldl_cons]
    rcases List.mem_cons.mp hnd with h1 | h2
    · subst h1
      exact catGet_mono_golFold rest _ _ _ (catGet_present_golInner nd.1 nd.2 cq hm hq hna cs)
    · exact ih h2 _

/-- Every positive counter of a non-goalkeeper ends up under its own
(unprefixed) category. -/
theorem catGet_present_jogInner (nome : String) (m : List (String × Int))
    (cq : String × Int) (hm : cq ∈ m) (hq : 0 < cq.2) :
    ∀ cs : Cats, (nome, cq.2) ∈ catGet (m.foldl (jogInnerStep nome) cs) cq.1 := by
  induction m with
  | nil => cases hm
  | cons cq2 m2 ih =>
    intro cs
    rw [List.foldl_cons]
    rcases List.mem_cons.mp hm with h1 | h2
    · subst h1
      refine catGet_mono_jogInner nome m2 _ _ _ ?_
      unfold jogInnerStep
      rw [if_pos hq, catGet_catAppend, if_pos rfl]
      exact List.mem_append_right _ (List.mem_singleton_self _)
    · exact ih h2 _

theorem catGet_mono_jogFold (jog : Dados) :
    ∀ (cs : Cats) (c : String) (e : String × Int),
    e ∈ catGet cs c → e ∈ catGet (jog.foldl jogCatStep cs) c := by
  induction jog with
  | nil => exact fun cs c e h => h
  | cons nd rest ih =>
    intro cs c e h
    rw [List.foldl_cons]
    exact ih _ c e (catGet_mono_jogInner nd.1 nd.2 cs c e h)

theorem catGet_present_jogFold (jog : Dados) (nd : String × List (String × Int))
    (hnd : nd ∈ jog) (cq : String × Int) (hm : cq ∈ nd.2) (hq : 0 < cq.2) :
    ∀ cs : Cats, (nd.1, cq.2) ∈ catGet (jog.foldl jogCatStep cs) cq.1 := by
  induction jog with
  | nil => cases hnd
  | cons nd2 rest ih =>
    intro cs
    rw [List.foldl_cons]
    rcases List.mem_cons.mp hnd with h1 | h2
    · subst h1
      exact catGet_mono_jogFold rest _ _ _ (catGet_present_jogInner nd.1 nd.2 cq hm hq cs)
    · exact ih h2 _

/-- The goalkeeper pass never touches an award category. -/
theorem catGet_award_golInner (nome : String) (m : List (String × Int)) (c : String)
    (hc : categorias_awards.contains c = true) :
    ∀ cs : Cats, catGet (m.foldl (golInnerStep nome) cs) c = catGet cs c := by
  induction m with
  | nil => exact fun cs => rfl
  | cons cq m2 ih =>
    intro cs
    rw [List.foldl_cons, ih]
    unfold golInnerStep
    split
    · rcases ha : categorias_awards.contains cq.1 with _ | _
      · simp only [Bool.false_eq_true, if_false]
        rw [catGet_catAppend, if_neg ?_]
        intro hkey
        have h2 := golKey_not_award cq.1 ha
        rw [hkey, hc] at h2
        exact Bool.noConfusion h2
      · simp only [if_true]
    · rfl

theorem catGet_award_golFold (gol : Dados) (c : String)
    (hc : categorias_awards.contains c = true) :
    ∀ cs : Cats, catGet (gol.foldl golCatStep cs) c = catGet cs c := by
  induction gol with
  | nil => exact fun cs => rfl
  | cons nd rest ih =>
    intro cs
    rw [List.foldl_cons, ih]
    exact catGet_award_golInner nd.1 nd.2 c hc cs

/-- Names appearing in the non-goalkeeper pass come from `jog` keys. -/
theorem catGet_jogInner_names (nome : String) (m : List (String × Int)) :
    ∀ (cs : Cats) (c : String) (e : String × Int),
    e ∈ catGet (m.foldl (jogInnerStep nome) cs) c → e ∈ catGet cs c ∨ e.1 = nome := by
  induction m with
  | nil => exact fun cs c e h => Or.inl h
  | cons cq m2 ih =>
    intro cs c e h
    rw [List.foldl_cons] at h
    rcases ih _ c e h with h1 | h2
    · unfold jogInnerStep at h1
      split at h1
      · rw [catGet_catAppend] at h1
        split at h1
        · rcases List.mem_append.mp h1 with h3 | h4
          · exact Or.inl h3
          · right
            rw [List.mem_singleton.mp h4]
        · exact Or.inl h1
      · exact Or.inl h1
    · exact Or.inr h2

theorem catGet_jogFold_names (jog : Dados) :
    ∀ (cs : Cats) (c : String) (e : String × Int),
    e ∈ catGet (jog.foldl jogCatStep cs) c →
    e ∈ catGet cs c ∨ ∃ nd ∈ jog, e.1 = nd.1 := by
  induction jog with
  | nil => exact fun cs c e h => Or.inl h
  | cons nd rest ih =>
    intro cs c e h
    rw [List.foldl_cons] at h
    rcases ih _ c e h with h1 | h2
    · rcases catGet_jogInner_names nd.1 nd.2 cs c e h1 with h3 | h4
      · exact Or.inl h3
      · exact Or.inr ⟨nd, List.mem_cons_self _ _, h4⟩
    · obtain ⟨nd2, hnd2, hname⟩ := h2
      exact Or.inr ⟨nd2, List.mem_cons_of_mem _ hnd2, hname⟩

/-! Key provenance in the aggregation fold: every name in `dadosJog` comes
from a processed non-goalkeeper record. -/

theorem bump_keys (nome cat : String) (q : Int) (d : Dados) :
    ∀ nd ∈ bump nome cat q d, nd.1 = nome ∨ nd.1 ∈ d.map Prod.fst := by
  induction d with
  | nil =>
    intro nd hnd
    unfold bump at hnd
    rw [List.mem_singleton.mp hnd]
    exact Or.inl rfl
  | cons nd0 rest ih =>
    intro nd hnd
    unfold bump at hnd
    split at hnd
    · rcases List.mem_cons.mp hnd with h1 | h2
      · rw [h1]
        exact Or.inr (List.mem_cons_self _ _)
      · exact Or.inr (List.mem_cons_of_mem _ (List.mem_map_of_mem Prod.fst h2))
    · rcases List.mem_cons.mp hnd with h1 | h2
      · rw [h1]
        exact Or.inr (List.mem_cons_self _ _)
      · rcases ih nd h2 with h3 | h4
        · exact Or.inl h3
        · exact Or.inr (List.mem_cons_of_mem _ h4)

theorem addAwards_keys (nome : String) (td : TeamEntry) :
    ∀ (d : Dados) (nd : String × List (String × Int)), nd ∈ addAwards nome td d →
    nd.1 = nome ∨ nd.1 ∈ d.map Prod.fst := by
  unfold addAwards
  generalize td.awards = aw
  induction aw with
  | nil => exact fun d nd h => Or.inr (List.mem_map_of_mem Prod.fst h)
  | cons kv rest ih =>
    intro d nd h
    rw [List.foldl_cons] at h
    rcases hc : coerceQtd kv.2 with _ | q
    all_goals rw [hc] at h
    · exact ih d nd h
    · dsimp only at h
      split at h
      · rcases ih _ nd h with h1 | h2
        · exact Or.inl h1
        · rcases hb : (bump nome kv.1 q d).find? (fun x => x.1 == nd.1) with _ | _
          · -- relate membership in map Prod.fst of bump
            obtain ⟨nd2, hnd2, hfst⟩ := List.mem_map.mp h2
            rcases bump_keys nome kv.1 q d nd2 hnd2 with h3 | h4
            · exact Or.inl (hfst ▸ h3)
            · exact Or.inr (hfst ▸ h4)
          · obtain ⟨nd2, hnd2, hfst⟩ := List.mem_map.mp h2
            rcases bump_keys nome kv.1 q d nd2 hnd2 with h3 | h4
            · exact Or.inl (hfst ▸ h3)
            · exact Or.inr (hfst ▸ h4)
      · exact ih d nd h

theorem addCampos_keys (nome : String) (td : TeamEntry) (campos : List String) :
    ∀ (d : Dados) (nd : String × List (String × Int)), nd ∈ addCampos nome td campos d →
    nd.1 = nome ∨ nd.1 ∈ d.map Prod.fst := by
  unfold addCampos
  induction campos with
  | nil => exact fun d nd h => Or.inr (List.mem_map_of_mem Prod.fst h)
  | cons campo rest ih =>
    intro d nd h
    rw [List.foldl_cons] at h
    rcases hc : coerceQtd (statGet td campo) with _ | q
    all_goals rw [hc] at h
    · exact ih d nd h
    · dsimp only at h
      split at h
      · rcases ih _ nd h with h1 | h2
        · exact Or.inl h1
        · obtain ⟨nd2, hnd2, hfst⟩ := List.mem_map.mp h2
          rcases bump_keys nome campo q d nd2 hnd2 with h3 | h4
          · exact Or.inl (hfst ▸ h3)
          · exact Or.inr (hfst ▸ h4)
      · exact ih d nd h

theorem processRecord_jog_keys (st : AggSt) (r : PlayerRec) (k : String)
    (h : k ∈ ((processRecord st r).dadosJog).map Prod.fst) :
    k ∈ st.dadosJog.map Prod.fst ∨ (isGoleiro r = false ∧ k = nomeOf r) := by
  unfold processRecord at h
  rcases hme : matchEntry r with _ | td
  all_goals rw [hme] at h
  · exact Or.inl h
  · dsimp only at h
    rcases hg : isGoleiro r with _ | _
    all_goals rw [hg] at h
    · simp only [Bool.false_eq_true, if_false] at h
      obtain ⟨nd, hnd, hfst⟩ := List.mem_map.mp h
      rcases addCampos_keys (nomeOf r) td _ _ nd hnd with h1 | h2
      · exact Or.inr ⟨rfl, hfst ▸ h1⟩
      · obtain ⟨nd2, hnd2, hfst2⟩ := List.mem_map.mp h2
        rcases addCampos_keys (nomeOf r) td _ _ nd2 hnd2 with h3 | h4
        · exact Or.inr ⟨rfl, hfst ▸ hfst2 ▸ h3⟩
        · obtain ⟨nd3, hnd3, hfst3⟩ := List.mem_map.mp h4
          rcases addAwards_keys (nomeOf r) td _ nd3 hnd3 with h5 | h6
          · exact Or.inr ⟨rfl, hfst ▸ hfst2 ▸ hfst3 ▸ h5⟩
          · left
            rw [← hfst, ← hfst2, ← hfst3]
            exact h6
    · simp only [if_true] at h
      exact Or.inl h

theorem foldl_processRecord_jog_names (players : List PlayerRec) :
    ∀ (st : AggSt) (k : String),
    k ∈ ((players.foldl processRecord st).dadosJog).map Prod.fst →
    k ∈ st.dadosJog.map Prod.fst ∨ ∃ r ∈ players, isGoleiro r = false ∧ nomeOf r = k := by
  induction players with
  | nil => exact fun st k h => Or.inl h
  | cons r rest ih =>
    intro st k h
    rw [List.foldl_cons] at h
    rcases ih _ k h with h1 | h2
    · rcases processRecord_jog_keys st r k h1 with h3 | h4
      · exact Or.inl h3
      · exact Or.inr ⟨r, List.mem_cons_self _ _, h4.1, h4.2.symm⟩
    · obtain ⟨r2, hr2, hg, hn⟩ := h2
      exact Or.inr ⟨r2, List.mem_cons_of_mem _ hr2, hg, hn⟩

theorem insertDesc_perm (k : (String × Int) → Int × Int × Int) (x : String × Int)
    (l : List (String × Int)) : (insertDesc k x l).Perm (x :: l) := by
  induction l with
  | nil => exact List.Perm.refl _
  | cons y ys ih =>
    unfold insertDesc
    split
    · exact ((ih.cons y).trans (List.Perm.swap x y ys))
    · exact List.Perm.refl _

theorem sortDesc_perm (k : (String × Int) → Int × Int × Int) (l : List (String × Int)) :
    (sortDesc k l).Perm l := by
  induction l with
  | nil => exact List.Perm.refl _
  | cons x xs ih => exact (insertDesc_perm k x (sortDesc k xs)).trans (ih.cons x)

/-- `catGet` through the final per-category sort. -/
theorem catGet_map_sort (k : (String × Int) → Int × Int × Int) (cats : Cats) (c : String) :
    catGet (cats.map (fun cl => (cl.1, sortDesc k cl.2))) c = sortDesc k (catGet cats c) := by
  unfold catGet
  rw [alookup_map_snd]
  rcases h : alookup cats c with _ | l
  · rfl
  · rfl

/-- C6 (amended): (1) every entry of the seven award categories is named by
some non-goalkeeper record — goalkeeper-sourced stats never reach them
(the claim's per-name phrasing fails only when a goalkeeper shares a name
with a non-goalkeeper record, see the counterexample); (2) every positive
goalkeeper counter outside the award categories is emitted under its
`golKey` category — the `goleiro_`-prefixed key for the four match-stat
fields; (3) every positive non-goalkeeper counter is emitted under its own
unprefixed key; (4) for match-stat fields the goalkeeper key is
`goleiro_`-prefixed, distinct from the non-goalkeeper key, and not an award
category; (5) for the general stats (`totalAssistence`/`totalGoals`) the
goalkeeper key is the same unprefixed key as for non-goalkeepers. -/
theorem extrair_awards_goalkeeper_separation (players : List PlayerRec) :
    (∀ c, categorias_awards.contains c = true →
      ∀ e ∈ catGet (extrair_awards_jogadores players).1 c,
        ∃ r ∈ players, isGoleiro r = false ∧ nomeOf r = e.1) ∧
    (∀ nd ∈ (players.foldl processRecord aggInit).dadosGol, ∀ cq ∈ nd.2, 0 < cq.2 →
      categorias_awards.contains cq.1 = false →
      (nd.1, cq.2) ∈ catGet (extrair_awards_jogadores players).1 (golKey cq.1)) ∧
    (∀ nd ∈ (players.foldl processRecord aggInit).dadosJog, ∀ cq ∈ nd.2, 0 < cq.2 →
      (nd.1, cq.2) ∈ catGet (extrair_awards_jogadores players).1 cq.1) ∧
    (∀ f ∈ campos_estatisticas_goleiros,
      golKey f = "goleiro_" ++ f ∧ ("goleiro_" ++ f) ≠ f ∧
      categorias_awards.contains ("goleiro_" ++ f) = false) ∧
    (∀ f ∈ campos_estatisticas_gerais, golKey f = f) := by
  have hcats : (extrair_awards_jogadores players).1 =
      (buildCats (players.foldl processRecord aggInit).dadosJog
        (players.foldl processRecord aggInit).dadosGol).map
        (fun cl => (cl.1, sortDesc (chave_ordenacao
          (players.foldl processRecord aggInit).dadosJog
          (players.foldl processRecord aggInit).dadosGol) cl.2)) := rfl
  refine ⟨?_, ?_, ?_, ?_, ?_⟩
  · intro c hc e he
    rw [hcats, catGet_map_sort] at he
    rw [(sortDesc_perm _ _).mem_iff] at he
    unfold buildCats at he
    rw [catGet_award_golFold _ c hc] at he
    rcases catGet_jogFold_names _ _ c e he with h1 | h2
    · cases h1
    · obtain ⟨nd, hnd, hfst⟩ := h2
      have hk : e.1 ∈ ((players.foldl processRecord aggInit).dadosJog).map Prod.fst :=
        hfst ▸ List.mem_map_of_mem Prod.fst hnd
      rcases foldl_processRecord_jog_names players aggInit e.1 hk with h3 | h4
      · cases h3
      · exact h4
  · intro nd hnd cq hcq hq hna
    rw [hcats, catGet_map_sort, (sortDesc_perm _ _).mem_iff]
    unfold buildCats
    exact catGet_present_golFold _ nd hnd cq hcq hq hna _
  · intro nd hnd cq hcq hq
    rw [hcats, catGet_map_sort, (sortDesc_perm _ _).mem_iff]
    unfold buildCats
    exact catGet_mono_golFold _ _ _ _ (catGet_present_jogFold _ nd hnd cq hcq hq _)
  · intro f hf
    fin_cases hf <;> exact ⟨rfl, by decide, rfl⟩
  · intro f hf
    fin_cases hf <;> rfl

def c6wGk : PlayerRec :=
  { fullName := some "Gil", position := some "Goleiro", imagePlayer := none,
    teamCode := some "A",
    includedTeams := [⟨"A", [], [("totalWins", .jint 4), ("totalGoals", .jint 1)]⟩] }

def c6wAna : PlayerRec :=
  { fullName := some "Ana", position := some "Atacante", imagePlayer := none,
    teamCode := some "A",
    includedTeams := [⟨"A", [("craque", .jint 2)], [("totalGoals", .jint 3)]⟩] }

/-- Witness: the C6 theorem applied at a concrete two-record input. -/
theorem extrair_awards_goalkeeper_separation_witness :
    (∃ r ∈ [c6wGk, c6wAna], isGoleiro r = false ∧ nomeOf r = "Ana") ∧
    ("Gil", (4 : Int)) ∈ catGet (extrair_awards_jogadores [c6wGk, c6wAna]).1
      (golKey "totalWins") ∧
    ("Ana", (3 : Int)) ∈ catGet (extrair_awards_jogadores [c6wGk, c6wAna]).1 "totalGoals" := by
  refine ⟨?_, ?_, ?_⟩
  · exact (extrair_awards_goalkeeper_separation [c6wGk, c6wAna]).1 "craque" (by decide)
      ("Ana", 2) (by decide)
  · exact (extrair_awards_goalkeeper_separation [c6wGk, c6wAna]).2.1
      ("Gil", [("totalGoals", 1), ("totalWins", 4)]) (by decide)
      ("totalWins", 4) (by decide) (by decide) (by decide)
  · exact (extrair_awards_goalkeeper_separation [c6wGk, c6wAna]).2.2.1
      ("Ana", [("craque", 2), ("totalGoals", 3)]) (by decide)
      ("totalGoals", 3) (by decide) (by decide)

/-! ### C3 (amended): team-scoping of aggregated stats -/

theorem alookup_bumpInner (cat c : String) (q : Int) (m : List (String × Int)) :
    alookup (bumpInner cat q m) c =
      if cat = c then some ((alookup m cat).getD 0 + q) else alookup m c := by
  induction m with
  | nil =>
    unfold bumpInner
    by_cases h : cat = c
    · rw [if_pos h]
      unfold alookup
      rw [List.find?_cons_of_pos _ (by simpa using h), List.find?_nil]
      simp
    · rw [if_neg h]
      unfold alookup
      rw [List.find?_cons_of_neg _ (by simpa using h), List.find?_nil]
  | cons cv rest ih =>
    unfold bumpInner
    by_cases hk : cv.1 = cat
    · rw [if_pos (by simpa using hk)]
      by_cases hc : cat = c
      · rw [if_pos hc]
        unfold alookup
        rw [List.find?_cons_of_pos _ (by simp [hk, hc]),
          List.find?_cons_of_pos _ (by simp [hk, hc])]
        simp
      · rw [if_neg hc]
        have hcvc : (cv.1 == c) = false := by
          simp only [beq_eq_false_iff_ne, ne_eq, hk]
          exact hc
        unfold alookup
        rw [List.find?_cons_of_neg _ (by simp [hcvc]),
          List.find?_cons_of_neg _ (by simp [hcvc])]
    · rw [if_neg (by simpa using hk)]
      by_cases hcvc : cv.1 = c
      · by_cases hc : cat = c
        · exact absurd (hcvc.trans hc.symm) hk
        · rw [if_neg hc]
          unfold alookup
          rw [List.find?_cons_of_pos _ (by simpa using hcvc),
            List.find?_cons_of_pos _ (by simpa using hcvc)]
      · by_cases hc : cat = c
        · rw [if_pos hc]
          unfold alookup
          rw [List.find?_cons_of_neg _ (by simpa using hcvc),
            List.find?_cons_of_neg _ (by simpa using hk)]
          have h2 := ih
          rw [if_pos hc] at h2
          unfold alookup at h2
          exact h2
        · rw [if_neg hc]
          unfold alookup
          rw [List.find?_cons_of_neg _ (by simpa using hcvc),
            List.find?_cons_of_neg _ (by simpa using hcvc)]
          have h2 := ih
          rw [if_neg hc] at h2
          unfold alookup at h2
          exact h2

/-- `dval d n c`: the counter of player `n` at category `c`. -/
def dval (d : Dados) (n c : String) : Option Int :=
  match alookup d n with
  | some m => alookup m c
  | none => none

theorem alookup_bump (nome cat : String) (q : Int) (d : Dados) (n : String) :
    alookup (bump nome cat q d) n =
      if nome = n then some (bumpInner cat q ((alookup d nome).getD [])) else alookup d n := by
  induction d with
  | nil =>
    unfold bump
    by_cases h : nome = n
    · rw [if_pos h]
      unfold alookup
      rw [List.find?_cons_of_pos _ (by simpa using h), List.find?_nil]
      rfl
    · rw [if_neg h]
      unfold alookup
      rw [List.find?_cons_of_neg _ (by simpa using h), List.find?_nil]
  | cons nd rest ih =>
    unfold bump
    by_cases hk : nd.1 = nome
    · rw [if_pos (by simpa using hk)]
      by_cases hn : nome = n
      · rw [if_pos hn]
        unfold alookup
        rw [List.find?_cons_of_pos _ (by simp [hk, hn]),
          List.find?_cons_of_pos _ (by simp [hk, hn])]
        simp [hk]
      · rw [if_neg hn]
        have hnc : (nd.1 == n) = false := by
          simp only [beq_eq_false_iff_ne, ne_eq, hk]
          exact hn
        unfold alookup
        rw [List.find?_cons_of_neg _ (by simp [hnc]),
          List.find?_cons_of_neg _ (by simp [hnc])]
    · rw [if_neg (by simpa using hk)]
      by_cases hnc : nd.1 = n
      · by_cases hn : nome = n
        · exact absurd (hnc.trans hn.symm) hk
        · rw [if_neg hn]
          unfold alookup
          rw [List.find?_cons_of_pos _ (by simpa using hnc),
            List.find?_cons_of_pos _ (by simpa using hnc)]
      · by_cases hn : nome = n
        · rw [if_pos hn]
          unfold alookup
          rw [List.find?_cons_of_neg _ (by simpa using hnc),
            List.find?_cons_of_neg _ (by simpa using hk)]
          have h2 := ih
          rw [if_pos hn] at h2
          unfold alookup at h2
          exact h2
        · rw [if_neg hn]
          unfold alookup
          rw [List.find?_cons_of_neg _ (by simpa using hnc),
            List.find?_cons_of_neg _ (by simpa using hnc)]
          have h2 := ih
          rw [if_neg hn] at h2
          unfold alookup at h2
          exact h2

theorem dval_bump_ne (nome cat : String) (q : Int) (d : Dados) (n c : String)
    (hc : cat ≠ c) : dval (bump nome cat q d) n c = dval d n c := by
  unfold dval
  rw [alookup_bump]
  by_cases hn : nome = n
  · rw [if_pos hn, ← hn]
    dsimp only
    rw [alookup_bumpInner, if_neg hc]
    rcases h : alookup d nome with _ | m
    · rfl
    · rfl
  · rw [if_neg hn]

/-- The `totalGoals` entries that the category assembly will emit. -/
def ftg (m : List (String × Int)) : List (String × Int) :=
  m.filter (fun cq => cq.1 == "totalGoals" && decide (0 < cq.2))

/-- No counter key is `totalGoals`. -/
def noTg (m : List (String × Int)) : Prop := ∀ cq ∈ m, cq.1 ≠ "totalGoals"

theorem ftg_of_noTg (m : List (String × Int)) (h : noTg m) : ftg m = [] := by
  induction m with
  | nil => rfl
  | cons cq rest ih =>
    unfold ftg
    rw [List.filter_cons_of_neg (by simp [h cq (List.mem_cons_self _ _)])]
    exact ih (fun cq2 h2 => h cq2 (List.mem_cons_of_mem _ h2))

theorem noTg_bumpInner (cat : String) (q : Int) (m : List (String × Int))
    (hm : noTg m) (hcat : cat ≠ "totalGoals") : noTg (bumpInner cat q m) := by
  induction m with
  | nil =>
    intro cq hcq
    rw [List.mem_singleton.mp hcq]
    exact hcat
  | cons cv rest ih =>
    unfold bumpInner
    split
    · intro cq hcq
      rcases List.mem_cons.mp hcq with h1 | h2
      · rw [h1]
        exact hm cv (List.mem_cons_self _ _)
      · exact hm cq (List.mem_cons_of_mem _ h2)
    · intro cq hcq
      rcases List.mem_cons.mp hcq with h1 | h2
      · rw [h1]
        exact hm cv (List.mem_cons_self _ _)
      · exact ih (fun cq2 hq2 => hm cq2 (List.mem_cons_of_mem _ hq2)) cq h2

theorem ftg_bumpInner_ne (cat : String) (q : Int) (m : List (String × Int))
    (hcat : cat ≠ "totalGoals") : ftg (bumpInner cat q m) = ftg m := by
  induction m with
  | nil =>
    unfold bumpInner ftg
    rw [List.filter_cons_of_neg (by simp [hcat]), List.filter_nil]
  | cons cv rest ih =>
    unfold bumpInner
    split
    · rename_i hk
      have hcv : cv.1 ≠ "totalGoals" := by
        rw [show cv.1 = cat from by simpa using hk]
        exact hcat
      unfold ftg
      rw [List.filter_cons_of_neg (by simp [hcv]), List.filter_cons_of_neg (by simp [hcv])]
    · unfold ftg
      rcases hp : (fun cq => cq.1 == "totalGoals" && decide (0 < cq.2)) cv with _ | _
      · rw [List.filter_cons_of_neg (by simp [hp]), List.filter_cons_of_neg (by simp [hp])]
        exact ih
      · rw [List.filter_cons_of_pos (by simp_all), List.filter_cons_of_pos (by simp_all)]
        unfold ftg at ih
        rw [ih]

theorem bumpInner_append_of_noKey (cat : String) (q : Int) (m : List (String × Int))
    (h : ∀ cq ∈ m, cq.1 ≠ cat) : bumpInner cat q m = m ++ [(cat, q)] := by
  induction m with
  | nil => rfl
  | cons cv rest ih =>
    unfold bumpInner
    rw [if_neg (by simp [h cv (List.mem_cons_self _ _)])]
    rw [ih (fun cq h2 => h cq (List.mem_cons_of_mem _ h2))]
    rfl

/-- Shape of one accumulation step at the `Dados` level: the loops of
`extrair_awards_jogadores` bump `dados[nome][cat]` by a positive amount or
leave the table alone. -/
def accStepD (nome : String) {α : Type} (g : α → Option (String × Int)) (d : Dados) (a : α) :
    Dados :=
  match g a with
  | some cq => if 0 < cq.2 then bump nome cq.1 cq.2 d else d
  | none => d

/-- The same step on a single player's counter list. -/
def accStepI {α : Type} (g : α → Option (String × Int)) (m : List (String × Int)) (a : α) :
    List (String × Int) :=
  match g a with
  | some cq => if 0 < cq.2 then bumpInner cq.1 cq.2 m else m
  | none => m

/-- Category/quantity extraction of the awards loop. -/
def gAw (kv : String × JVal) : Option (String × Int) :=
  match coerceQtd kv.2 with
  | some q => some (kv.1, q)
  | none => none

/-- Category/quantity extraction of a stat-fields loop. -/
def gCampo (td : TeamEntry) (campo : String) : Option (String × Int) :=
  match coerceQtd (statGet td campo) with
  | some q => some (campo, q)
  | none => none

theorem addAwards_eq_accFold (nome : String) (td : TeamEntry) (d : Dados) :
    addAwards nome td d = td.awards.foldl (accStepD nome gAw) d := by
  unfold addAwards
  refine List.foldl_ext _ _ d (fun d2 kv _ => ?_)
  cases hc : coerceQtd kv.2 <;> simp [accStepD, gAw, hc]

theorem addCampos_eq_accFold (nome : String) (td : TeamEntry) (campos : List String)
    (d : Dados) :
    addCampos nome td campos d = campos.foldl (accStepD nome (gCampo td)) d := by
  unfold addCampos
  refine List.foldl_ext _ _ d (fun d2 campo _ => ?_)
  cases hc : coerceQtd (statGet td campo) <;> simp [accStepD, gCampo, hc]

theorem accFold_single (nome : String) {α : Type} (g : α → Option (String × Int))
    (l : List α) :
    ∀ d : Dados, (d = [] ∨ ∃ m0, d = [(nome, m0)]) →
      (l.foldl (accStepD nome g) d = [] ∨
        ∃ m1, l.foldl (accStepD nome g) d = [(nome, m1)]) ∧
      (alookup (l.foldl (accStepD nome g) d) nome).getD [] =
        l.foldl (accStepI g) ((alookup d nome).getD []) := by
  induction l with
  | nil => exact fun d hd => ⟨hd, rfl⟩
  | cons a rest ih =>
    intro d hd
    rw [List.foldl_cons, List.foldl_cons]
    have hstep : (accStepD nome g d a = [] ∨ ∃ m, accStepD nome g d a = [(nome, m)]) ∧
        (alookup (accStepD nome g d a) nome).getD [] =
          accStepI g ((alookup d nome).getD []) a := by
      unfold accStepD accStepI
      cases hg : g a with
      | none => exact ⟨hd, rfl⟩
      | some cq =>
        dsimp only
        by_cases hq : 0 < cq.2
        · rw [if_pos hq, if_pos hq]
          rcases hd with h0 | ⟨m0, h1⟩
          · subst h0
            exact ⟨Or.inr ⟨bumpInner cq.1 cq.2 [], rfl⟩, by simp [bump, alookup]⟩
          · subst h1
            refine ⟨Or.inr ⟨bumpInner cq.1 cq.2 m0, by simp [bump]⟩, ?_⟩
            simp [bump, alookup]
        · rw [if_neg hq, if_neg hq]
          exact ⟨hd, rfl⟩
    obtain ⟨h1, h2⟩ := hstep
    have h3 := ih (accStepD nome g d a) h1
    rw [h2] at h3
    exact h3

theorem noTg_accFoldI {α : Type} (g : α → Option (String × Int)) (l : List α)
    (hl : ∀ a ∈ l, ∀ cq, g a = some cq → cq.1 ≠ "totalGoals") :
    ∀ m, noTg m → noTg (l.foldl (accStepI g) m) := by
  induction l with
  | nil => exact fun m hm => hm
  | cons a rest ih =>
    intro m hm
    rw [List.foldl_cons]
    refine ih (fun a2 h2 => hl a2 (List.mem_cons_of_mem _ h2)) _ ?_
    unfold accStepI
    cases hg : g a with
    | none => exact hm
    | some cq =>
      dsimp only
      by_cases hq : 0 < cq.2
      · rw [if_pos hq]
        exact noTg_bumpInner _ _ _ hm (hl a (List.mem_cons_self _ _) cq hg)
      · rw [if_neg hq]
        exact hm

theorem ftg_accFoldI_ne {α : Type} (g : α → Option (String × Int)) (l : List α)
    (hl : ∀ a ∈ l, ∀ cq, g a = some cq → cq.1 ≠ "totalGoals") :
    ∀ m, ftg (l.foldl (accStepI g) m) = ftg m := by
  induction l with
  | nil => exact fun m => rfl
  | cons a rest ih =>
    intro m
    rw [List.foldl_cons]
    rw [ih (fun a2 h2 => hl a2 (List.mem_cons_of_mem _ h2))]
    unfold accStepI
    cases hg : g a with
    | none => rfl
    | some cq =>
      dsimp only
      by_cases hq : 0 < cq.2
      · rw [if_pos hq]
        exact ftg_bumpInner_ne _ _ _ (hl a (List.mem_cons_self _ _) cq hg)
      · rw [if_neg hq]

/-- The awards loop on a single player's counters. -/
def addAwardsInner (td : TeamEntry) (m : List (String × Int)) : List (String × Int) :=
  td.awards.foldl (accStepI gAw) m

/-- A stat-fields loop on a single player's counters. -/
def addCamposInner (td : TeamEntry) (campos : List String) (m : List (String × Int)) :
    List (String × Int) :=
  campos.foldl (accStepI (gCampo td)) m

/-- The full per-record counter list built from its matching entry. -/
def innerUpd (td : TeamEntry) (campos2 : List String) : List (String × Int) :=
  addCamposInner td campos2
    (addCamposInner td campos_estatisticas_gerais (addAwardsInner td []))

theorem ftg_innerUpd (td : TeamEntry) (campos2 : List String)
    (hA : alookup td.awards "totalGoals" = none)
    (h2 : ∀ c ∈ campos2, c ≠ "totalGoals") :
    ftg (innerUpd td campos2) =
      match coerceQtd (statGet td "totalGoals") with
      | some q => if 0 < q then [("totalGoals", q)] else []
      | none => [] := by
  have hAkeys : ∀ kv ∈ td.awards, ∀ cq, gAw kv = some cq → cq.1 ≠ "totalGoals" := by
    intro kv hkv cq hcq
    have hfind : td.awards.find? (fun kv => kv.1 == "totalGoals") = none := by
      unfold alookup at hA
      exact Option.map_eq_none'.mp hA
    have hne : ¬(kv.1 == "totalGoals") = true := List.find?_eq_none.mp hfind kv hkv
    unfold gAw at hcq
    cases hc : coerceQtd kv.2 with
    | none => rw [hc] at hcq; exact absurd hcq (by simp)
    | some q =>
      rw [hc] at hcq
      have : cq = (kv.1, q) := by simpa using hcq.symm
      rw [this]
      simpa using hne
  have hCkeys : ∀ c ∈ campos2, ∀ cq, gCampo td c = some cq → cq.1 ≠ "totalGoals" := by
    intro c hc cq hcq
    unfold gCampo at hcq
    cases hcc : coerceQtd (statGet td c) with
    | none => rw [hcc] at hcq; exact absurd hcq (by simp)
    | some q =>
      rw [hcc] at hcq
      have : cq = (c, q) := by simpa using hcq.symm
      rw [this]
      exact h2 c hc
  have hs1 : noTg (addAwardsInner td []) :=
    noTg_accFoldI gAw td.awards hAkeys [] (fun cq h => absurd h (List.not_mem_nil cq))
  have hger : addCamposInner td campos_estatisticas_gerais (addAwardsInner td []) =
      accStepI (gCampo td) (accStepI (gCampo td) (addAwardsInner td []) "totalAssistence")
        "totalGoals" := rfl
  have hs2 : noTg (accStepI (gCampo td) (addAwardsInner td []) "totalAssistence") := by
    unfold accStepI gCampo
    cases hc : coerceQtd (statGet td "totalAssistence") with
    | none => exact hs1
    | some q =>
      dsimp only
      by_cases hq : 0 < q
      · rw [if_pos hq]
        exact noTg_bumpInner _ _ _ hs1 (by decide)
      · rw [if_neg hq]
        exact hs1
  unfold innerUpd
  unfold addCamposInner
  rw [ftg_accFoldI_ne (gCampo td) campos2 hCkeys]
  rw [show List.foldl (accStepI (gCampo td))
      (addAwardsInner td []) campos_estatisticas_gerais =
      accStepI (gCampo td) (accStepI (gCampo td) (addAwardsInner td []) "totalAssistence")
        "totalGoals" from rfl]
  set m2 := accStepI (gCampo td) (addAwardsInner td []) "totalAssistence" with hm2
  unfold accStepI gCampo
  cases hc : coerceQtd (statGet td "totalGoals") with
  | none => exact ftg_of_noTg _ hs2
  | some q =>
    dsimp only
    by_cases hq : 0 < q
    · rw [if_pos hq, if_pos hq]
      rw [bumpInner_append_of_noKey _ _ _ hs2]
      unfold ftg
      rw [List.filter_append]
      have hf2 : ftg m2 = [] := ftg_of_noTg _ hs2
      unfold ftg at hf2
      rw [hf2]
      simp [hq]
    · rw [if_neg hq, if_neg hq]
      exact ftg_of_noTg _ hs2

theorem catGet_jogInnerFold_tg (nome : String) (m : List (String × Int)) :
    ∀ cs, catGet (m.foldl (jogInnerStep nome) cs) "totalGoals" =
      catGet cs "totalGoals" ++ (ftg m).map (fun cq => (nome, cq.2)) := by
  induction m with
  | nil => intro cs; simp [ftg]
  | cons cq rest ih =>
    intro cs
    rw [List.foldl_cons, ih]
    unfold jogInnerStep
    by_cases hq : 0 < cq.2
    · rw [if_pos hq, catGet_catAppend]
      by_cases hk : cq.1 = "totalGoals"
      · rw [if_pos hk]
        unfold ftg
        rw [List.filter_cons_of_pos (by simp [hk, hq])]
        simp
      · rw [if_neg hk]
        unfold ftg
        rw [List.filter_cons_of_neg (by simp [hk])]
    · rw [if_neg hq]
      unfold ftg
      rw [List.filter_cons_of_neg (by simp [hq])]

theorem catGet_golInnerFold_tg (nome : String) (m : List (String × Int)) :
    ∀ cs, catGet (m.foldl (golInnerStep nome) cs) "totalGoals" =
      catGet cs "totalGoals" ++ (ftg m).map (fun cq => (nome, cq.2)) := by
  induction m with
  | nil => intro cs; simp [ftg]
  | cons cq rest ih =>
    intro cs
    rw [List.foldl_cons, ih]
    unfold golInnerStep
    by_cases hq : 0 < cq.2
    · rw [if_pos hq]
      by_cases haw : categorias_awards.contains cq.1 = true
      · rw [if_pos haw]
        have hk : cq.1 ≠ "totalGoals" := by
          intro h
          rw [h] at haw
          exact absurd haw (by decide)
        unfold ftg
        rw [List.filter_cons_of_neg (by simp [hk])]
      · rw [if_neg haw, catGet_catAppend]
        by_cases hg : campos_estatisticas_goleiros.contains cq.1 = true
        · have hgk : golKey cq.1 = "goleiro_" ++ cq.1 := by
            unfold golKey
            rw [if_pos hg]
          have hne : golKey cq.1 ≠ "totalGoals" := by
            rw [hgk]
            obtain ⟨xl⟩ := cq.1
            intro h
            have hb : ((String.mk ('g' :: 'o' :: 'l' :: 'e' :: 'i' :: 'r' :: 'o' :: '_' :: xl))
                == "totalGoals") = false := rfl
            rw [show String.mk ('g' :: 'o' :: 'l' :: 'e' :: 'i' :: 'r' :: 'o' :: '_' :: xl) =
              "goleiro_" ++ String.mk xl from rfl, h] at hb
            simp at hb
          rw [if_neg hne]
          have hk : cq.1 ≠ "totalGoals" := by
            intro h
            rw [h] at hg
            exact absurd hg (by decide)
          unfold ftg
          rw [List.filter_cons_of_neg (by simp [hk])]
        · have hgk : golKey cq.1 = cq.1 := by
            unfold golKey
            rw [if_neg hg]
          rw [hgk]
          by_cases hk : cq.1 = "totalGoals"
          · rw [if_pos hk]
            unfold ftg
            rw [List.filter_cons_of_pos (by simp [hk, hq])]
            simp
          · rw [if_neg hk]
            unfold ftg
            rw [List.filter_cons_of_neg (by simp [hk])]
    · rw [if_neg hq]
      unfold ftg
      rw [List.filter_cons_of_neg (by simp [hq])]

theorem catGet_jogSide_tg (nome : String) (td : TeamEntry) (campos2 : List String) :
    catGet (List.foldl jogCatStep []
        (addCampos nome td campos2
          (addCampos nome td campos_estatisticas_gerais (addAwards nome td []))))
      "totalGoals" =
    (ftg (innerUpd td campos2)).map (fun cq => (nome, cq.2)) := by
  rw [addAwards_eq_accFold, addCampos_eq_accFold, addCampos_eq_accFold]
  have h1 := accFold_single nome gAw td.awards [] (Or.inl rfl)
  have h2 := accFold_single nome (gCampo td) campos_estatisticas_gerais _ h1.1
  have h3 := accFold_single nome (gCampo td) campos2 _ h2.1
  have hminner : (alookup (List.foldl (accStepD nome (gCampo td))
      (List.foldl (accStepD nome (gCampo td))
        (List.foldl (accStepD nome gAw) [] td.awards)
        campos_estatisticas_gerais) campos2) nome).getD [] = innerUpd td campos2 := by
    rw [h3.2, h2.2, h1.2]
    rfl
  rcases h3.1 with h0 | ⟨m1, hm1⟩
  · rw [h0] at hminner ⊢
    have hiu : innerUpd td campos2 = [] := hminner.symm
    rw [hiu]
    rfl
  · rw [hm1] at hminner ⊢
    have hm1v : m1 = innerUpd td campos2 := by
      simpa [alookup] using hminner
    rw [List.foldl_cons, List.foldl_nil]
    unfold jogCatStep
    dsimp only
    rw [catGet_jogInnerFold_tg, hm1v]
    rfl

theorem catGet_golSide_tg (nome : String) (td : TeamEntry) (campos2 : List String) :
    catGet (List.foldl golCatStep []
        (addCampos nome td campos2
          (addCampos nome td campos_estatisticas_gerais (addAwards nome td []))))
      "totalGoals" =
    (ftg (innerUpd td campos2)).map (fun cq => (nome, cq.2)) := by
  rw [addAwards_eq_accFold, addCampos_eq_accFold, addCampos_eq_accFold]
  have h1 := accFold_single nome gAw td.awards [] (Or.inl rfl)
  have h2 := accFold_single nome (gCampo td) campos_estatisticas_gerais _ h1.1
  have h3 := accFold_single nome (gCampo td) campos2 _ h2.1
  have hminner : (alookup (List.foldl (accStepD nome (gCampo td))
      (List.foldl (accStepD nome (gCampo td))
        (List.foldl (accStepD nome gAw) [] td.awards)
        campos_estatisticas_gerais) campos2) nome).getD [] = innerUpd td campos2 := by
    rw [h3.2, h2.2, h1.2]
    rfl
  rcases h3.1 with h0 | ⟨m1, hm1⟩
  · rw [h0] at hminner ⊢
    have hiu : innerUpd td campos2 = [] := hminner.symm
    rw [hiu]
    rfl
  · rw [hm1] at hminner ⊢
    have hm1v : m1 = innerUpd td campos2 := by
      simpa [alookup] using hminner
    rw [List.foldl_cons, List.foldl_nil]
    unfold golCatStep
    dsimp only
    rw [catGet_golInnerFold_tg, hm1v]
    rfl

/-- C3 (amended): processing a single record, the aggregated `totalGoals`
category is computed from the first `includedTeams` entry whose stripped
`teamCode` equals the record's own stripped `teamCode` (provided the entry's
awards mapping carries no `totalGoals` key of its own): the category holds
exactly the entry's coercible positive `totalGoals` value under the record's
name, and is absent when that value is missing, non-numeric or non-positive.
A record with no matching entry contributes no stats at all, yet its name
still reaches the name list and its image the image map. -/
theorem extrair_awards_totalGoals_from_matching_entry_only :
    (∀ r td, matchEntry r = some td →
      alookup td.awards "totalGoals" = none →
      catGet (extrair_awards_jogadores [r]).1 "totalGoals" =
        (match coerceQtd (statGet td "totalGoals") with
         | some q => if 0 < q then [(nomeOf r, q)] else []
         | none => [])) ∧
    (∀ r, matchEntry r = none →
      (extrair_awards_jogadores [r]).1 = [] ∧
      (nomeOf r ≠ "" → nomeOf r ≠ "Sem nome" →
        (extrair_awards_jogadores [r]).2.2 = [nomeOf r]) ∧
      (pyStrip (r.imagePlayer.getD "") ≠ "" →
        pyStartsWith (pyStrip (r.imagePlayer.getD "")) "http" = true →
        (extrair_awards_jogadores [r]).2.1 =
          [(nomeOf r, pyStrip (r.imagePlayer.getD ""))])) := by
  constructor
  · intro r td hm hA
    unfold extrair_awards_jogadores
    dsimp only
    rw [List.foldl_cons, List.foldl_nil, catGet_map_sort]
    unfold processRecord
    dsimp only
    rw [hm]
    dsimp only
    by_cases hgol : isGoleiro r = true
    · rw [if_pos hgol, if_pos hgol]
      unfold buildCats
      dsimp only
      rw [show aggInit.dadosJog = [] from rfl, show aggInit.dadosGol = [] from rfl,
        List.foldl_nil]
      rw [catGet_golSide_tg]
      rw [ftg_innerUpd td campos_estatisticas_goleiros hA (by decide)]
      cases hc : coerceQtd (statGet td "totalGoals") with
      | none => rfl
      | some q =>
        dsimp only
        by_cases hq : 0 < q
        · rw [if_pos hq, if_pos hq]
          rfl
        · rw [if_neg hq, if_neg hq]
          rfl
    · rw [if_neg hgol, if_neg hgol]
      unfold buildCats
      dsimp only
      rw [show aggInit.dadosJog = [] from rfl, show aggInit.dadosGol = [] from rfl,
        List.foldl_nil]
      rw [catGet_jogSide_tg]
      rw [ftg_innerUpd td campos_estatisticas_partidas hA (by decide)]
      cases hc : coerceQtd (statGet td "totalGoals") with
      | none => rfl
      | some q =>
        dsimp only
        by_cases hq : 0 < q
        · rw [if_pos hq, if_pos hq]
          rfl
        · rw [if_neg hq, if_neg hq]
          rfl
  · intro r hm
    unfold extrair_awards_jogadores
    dsimp only
    rw [List.foldl_cons, List.foldl_nil]
    unfold processRecord
    dsimp only
    rw [hm]
    dsimp only
    refine ⟨rfl, ?_, ?_⟩
    · intro h1 h2
      simp only [aggInit, List.contains_nil, Bool.not_false, Bool.and_true]
      rw [if_pos (by simp [h1, h2])]
      rfl
    · intro h1 h2
      simp only [aggInit]
      rw [if_pos (by simp [h1, h2, alookup])]
      rfl

def c3wEntry : TeamEntry := ⟨"B", [], [("totalGoals", .jint 3)]⟩

def c3wRec : PlayerRec :=
  { fullName := some "Walter", position := some "Atacante", imagePlayer := none,
    teamCode := some "B", includedTeams := [c3wEntry] }

def c3wRecB : PlayerRec :=
  { fullName := some "Bia", position := none, imagePlayer := some "http://x/y.png",
    teamCode := none, includedTeams := [] }

theorem extrair_awards_totalGoals_from_matching_entry_only_witness :
    (matchEntry c3wRec = some c3wEntry ∧ alookup c3wEntry.awards "totalGoals" = none ∧
      catGet (extrair_awards_jogadores [c3wRec]).1 "totalGoals" = [("Walter", 3)]) ∧
    (matchEntry c3wRecB = none ∧ (extrair_awards_jogadores [c3wRecB]).2.2 = ["Bia"]) := by
  constructor
  · refine ⟨rfl, rfl, ?_⟩
    have h := extrair_awards_totalGoals_from_matching_entry_only.1 c3wRec c3wEntry rfl rfl
    rw [h]
    rfl
  · refine ⟨rfl, ?_⟩
    have h := (extrair_awards_totalGoals_from_matching_entry_only.2 c3wRecB rfl).2.1
      (by decide) (by decide)
    rw [h]
    rfl

/-! ### C4: newline-separated object inputs -/

/-- A printable character (no control characters); braces, brackets, quotes
and backslashes are all allowed. -/
def goodChar (c : Char) : Bool := decide (32 ≤ c.toNat)

/-- JSON string-literal escaping of one character. -/
def escChar (c : Char) : List Char :=
  if c = '"' then ['\\', '"'] else if c = '\\' then ['\\', '\\'] else [c]

/-- JSON string-literal escaping of a character list. -/
def escL : List Char → List Char
  | [] => []
  | c :: cs => escChar c ++ escL cs

/-- The single-line source text `{"fullName": "<escaped s>"}`. -/
def renderLine (s : String) : List Char :=
  '{' :: '"' :: 'f' :: 'u' :: 'l' :: 'l' :: 'N' :: 'a' :: 'm' :: 'e' :: '"' :: ':' :: ' ' ::
    '"' :: (escL s.toList ++ ['"', '}'])

/-- The parsed record such a line denotes. -/
def recJson (s : String) : Json := Json.obj [("fullName", Json.str s)]

theorem parseStrBody_escL (l : List Char) (hl : ∀ c ∈ l, goodChar c = true) :
    ∀ r, parseStrBody (escL l ++ '"' :: r) = some (l, r) := by
  induction l with
  | nil =>
    intro r
    rw [show escL [] ++ '"' :: r = '"' :: r from rfl]
    rw [parseStrBody.eq_def]
    simp
  | cons c cs ih =>
    intro r
    have hcs : ∀ d ∈ cs, goodChar d = true := fun d hd => hl d (List.mem_cons_of_mem _ hd)
    by_cases h1 : c = '"'
    · subst h1
      rw [show escL ('"' :: cs) ++ '"' :: r = '\\' :: '"' :: (escL cs ++ '"' :: r) from rfl]
      simp only [parseStrBody]
      rw [ih hcs r]
      simp
    · by_cases h2 : c = '\\'
      · subst h2
        rw [show escL ('\\' :: cs) ++ '"' :: r = '\\' :: '\\' :: (escL cs ++ '"' :: r) from rfl]
        simp only [parseStrBody]
        rw [ih hcs r]
        simp
      · have hesc : escL (c :: cs) = c :: escL cs := by
          rw [show escL (c :: cs) = escChar c ++ escL cs from rfl]
          unfold escChar
          rw [if_neg h1, if_neg h2]
          rfl
        have h3 : ¬c.toNat < 32 := by
          have := hl c (List.mem_cons_self _ _)
          unfold goodChar at this
          simp at this
          omega
        rw [hesc, List.cons_append, parseStrBody.eq_def]
        dsimp only
        rw [if_neg h1, if_neg h2, if_neg h3, ih hcs r]

theorem parseVal_renderLine (s : String) (hs : ∀ c ∈ s.toList, goodChar c = true) (f : Nat) :
    parseVal (f + 3) (renderLine s) = some (recJson s, []) := by
  rw [show parseVal (f + 3) (renderLine s) =
      (match parseObjRest (f + 2)
          ('"' :: 'f' :: 'u' :: 'l' :: 'l' :: 'N' :: 'a' :: 'm' :: 'e' :: '"' :: ':' :: ' ' :: '"'
            :: (escL s.toList ++ ['"', '}'])) with
       | some (fs, r2) => some (Json.obj (fs.foldl (fun d kv => aupsert kv.1 kv.2 d) []), r2)
       | none => none) from rfl]
  rw [show parseObjRest (f + 2)
        ('"' :: 'f' :: 'u' :: 'l' :: 'l' :: 'N' :: 'a' :: 'm' :: 'e' :: '"' :: ':' :: ' ' :: '"'
          :: (escL s.toList ++ ['"', '}'])) =
      (match parseVal (f + 1) (' ' :: '"' :: (escL s.toList ++ ['"', '}'])) with
       | some (v, r4) =>
         (match skipWsJ r4 with
          | ',' :: r5 =>
            (match parseObjRest (f + 1) (skipWsJ r5) with
             | some (fs, r6) => some (("fullName", v) :: fs, r6)
             | none => none)
          | '}' :: r5 => some ([("fullName", v)], r5)
          | _ => none)
       | none => none) from rfl]
  rw [show parseVal (f + 1) (' ' :: '"' :: (escL s.toList ++ ['"', '}'])) =
      (match parseStrBody (escL s.toList ++ '"' :: ['}']) with
       | some (cs, r) => some (Json.str ⟨cs⟩, r)
       | none => none) from rfl]
  rw [parseStrBody_escL s.toList hs ['}']]
  rfl

theorem json_loads_renderLine (s : String) (hs : ∀ c ∈ s.toList, goodChar c = true) :
    json_loads (renderLine s) = some (recJson s) := by
  unfold json_loads
  have hlen : (renderLine s).length + 1 = ((renderLine s).length - 2) + 3 := by
    have h16 : (renderLine s).length = 14 + (escL s.toList ++ ['"', '}']).length := by
      unfold renderLine
      simp
      omega
    omega
  rw [hlen, parseVal_renderLine s hs]
  rfl

theorem scanLine_escL (l : List Char) (hl : ∀ c ∈ l, goodChar c = true) :
    ∀ d : Int, scanLine ⟨d, true, false⟩ (escL l) = ⟨d, true, false⟩ := by
  induction l with
  | nil => intro d; rfl
  | cons c cs ih =>
    intro d
    have hcs : ∀ e ∈ cs, goodChar e = true := fun e he => hl e (List.mem_cons_of_mem _ he)
    rw [show escL (c :: cs) = escChar c ++ escL cs from rfl]
    unfold scanLine
    rw [List.foldl_append]
    have hstep : List.foldl scanChar ⟨d, true, false⟩ (escChar c) = ⟨d, true, false⟩ := by
      unfold escChar
      by_cases h1 : c = '"'
      · rw [if_pos h1]
        rfl
      · rw [if_neg h1]
        by_cases h2 : c = '\\'
        · rw [if_pos h2]
          rfl
        · rw [if_neg h2]
          show scanChar ⟨d, true, false⟩ c = ⟨d, true, false⟩
          simp [scanChar, h1, h2]
    rw [hstep]
    exact ih hcs d

theorem scanLine_renderLine (s : String) (hs : ∀ c ∈ s.toList, goodChar c = true) :
    scanLine scanInit (renderLine s) = scanInit := by
  rw [show renderLine s =
    (['{', '"', 'f', 'u', 'l', 'l', 'N', 'a', 'm', 'e', '"', ':', ' ', '"'] : List Char) ++
      (escL s.toList ++ ['"', '}']) from rfl]
  unfold scanLine
  rw [List.foldl_append, List.foldl_append]
  rw [show List.foldl scanChar scanInit
      (['{', '"', 'f', 'u', 'l', 'l', 'N', 'a', 'm', 'e', '"', ':', ' ', '"'] : List Char) =
      (⟨1, true, false⟩ : ScanState) from rfl]
  rw [show List.foldl scanChar (⟨1, true, false⟩ : ScanState) (escL s.toList) =
      scanLine ⟨1, true, false⟩ (escL s.toList) from rfl]
  rw [scanLine_escL s.toList hs 1]
  rfl

theorem splitNlGo_nf (l : List Char) (h : ∀ c ∈ l, c ≠ '\n') :
    ∀ acc, splitNlGo acc l = [acc.reverse ++ l] := by
  induction l with
  | nil =>
    intro acc
    unfold splitNlGo
    rw [List.append_nil]
  | cons c cs ih =>
    intro acc
    conv_lhs => rw [splitNlGo]
    rw [if_neg (h c (List.mem_cons_self _ _))]
    rw [ih (fun e he => h e (List.mem_cons_of_mem _ he)) (c :: acc)]
    simp only [List.reverse_cons, List.append_assoc, List.cons_append, List.nil_append]

theorem splitNl_joinNl (lines : List (List Char)) (hne : lines ≠ [])
    (hnf : ∀ l ∈ lines, ∀ c ∈ l, c ≠ '\n') : splitNl (joinNl lines) = lines := by
  induction lines with
  | nil => exact absurd rfl hne
  | cons l rest ih =>
    cases rest with
    | nil =>
      rw [show joinNl [l] = l from rfl]
      unfold splitNl
      rw [splitNlGo_nf l (hnf l (List.mem_cons_self _ _)) []]
      rfl
    | cons l2 rest2 =>
      rw [show joinNl (l :: l2 :: rest2) = l ++ '\n' :: joinNl (l2 :: rest2) from rfl]
      unfold splitNl
      rw [splitNlGo_append_nf l [] (joinNl (l2 :: rest2)) (hnf l (List.mem_cons_self _ _))]
      have ih2 := ih (by simp) (fun l3 h3 => hnf l3 (List.mem_cons_of_mem _ h3))
      unfold splitNl at ih2
      rw [ih2]
      rfl

theorem escL_nf (l : List Char) (hl : ∀ c ∈ l, goodChar c = true) :
    ∀ c ∈ escL l, c ≠ '\n' := by
  induction l with
  | nil => intro c hc; exact absurd hc (List.not_mem_nil c)
  | cons c cs ih =>
    intro e he
    rw [show escL (c :: cs) = escChar c ++ escL cs from rfl] at he
    rcases List.mem_append.mp he with h1 | h2
    · unfold escChar at h1
      by_cases hq : c = '"'
      · rw [if_pos hq] at h1
        rcases List.mem_cons.mp h1 with h3 | h3
        · rw [h3]; decide
        · rw [List.mem_singleton.mp h3]; decide
      · rw [if_neg hq] at h1
        by_cases hb : c = '\\'
        · rw [if_pos hb] at h1
          rcases List.mem_cons.mp h1 with h3 | h3
          · rw [h3]; decide
          · rw [List.mem_singleton.mp h3]; decide
        · rw [if_neg hb] at h1
          rw [List.mem_singleton.mp h1]
          have := hl c (List.mem_cons_self _ _)
          unfold goodChar at this
          simp at this
          intro hcn
          rw [hcn] at this
          exact absurd this (by decide)
    · exact ih (fun d hd => hl d (List.mem_cons_of_mem _ hd)) e h2

theorem renderLine_nf (s : String) (hs : ∀ c ∈ s.toList, goodChar c = true) :
    ∀ c ∈ renderLine s, c ≠ '\n' := by
  intro c hc
  rw [show renderLine s =
    (['{', '"', 'f', 'u', 'l', 'l', 'N', 'a', 'm', 'e', '"', ':', ' ', '"'] : List Char) ++
      (escL s.toList ++ ['"', '}']) from rfl] at hc
  rcases List.mem_append.mp hc with h1 | h2
  · fin_cases h1 <;> decide
  · rcases List.mem_append.mp h2 with h3 | h4
    · exact escL_nf s.toList hs c h3
    · fin_cases h4 <;> decide

theorem processLine_renderLine (players : List Json) (s : String)
    (hs : ∀ c ∈ s.toList, goodChar c = true) :
    processLine ⟨players, [], scanInit⟩ (renderLine s) =
      ⟨players ++ [recJson s], [], scanInit⟩ := by
  unfold processLine
  have hct : '{' ∈ renderLine s := by
    rw [show renderLine s =
      (['{', '"', 'f', 'u', 'l', 'l', 'N', 'a', 'm', 'e', '"', ':', ' ', '"'] : List Char) ++
        (escL s.toList ++ ['"', '}']) from rfl]
    simp
  rw [if_neg (by simp [hct])]
  dsimp only
  rw [show scanLine (⟨players, [], scanInit⟩ : PState).scan (renderLine s) =
      scanLine scanInit (renderLine s) from rfl]
  rw [scanLine_renderLine s hs]
  rw [if_pos (show scanInit.depth = 0 from rfl)]
  rw [show joinNl (([] : List (List Char)) ++ [renderLine s]) = renderLine s from rfl]
  rw [json_loads_renderLine s hs]
  rfl

theorem foldl_processLine_renderLines (ns : List String)
    (hns : ∀ s ∈ ns, ∀ c ∈ s.toList, goodChar c = true) :
    ∀ players, (ns.map renderLine).foldl processLine ⟨players, [], scanInit⟩ =
      ⟨players ++ ns.map recJson, [], scanInit⟩ := by
  induction ns with
  | nil => intro players; simp
  | cons s rest ih =>
    intro players
    rw [List.map_cons, List.foldl_cons]
    rw [processLine_renderLine players s (hns s (List.mem_cons_self _ _))]
    rw [ih (fun t ht => hns t (List.mem_cons_of_mem _ ht)) (players ++ [recJson s])]
    simp

/-- C4 (amended): for two or more top-level JSON objects with a `fullName`
key placed one per line (newline-separated rather than merely concatenated),
the parser returns exactly one record per object, in order of appearance —
including when the string values contain brace/bracket characters or
backslash-escaped quotes, which the depth tracker ignores inside string
literals; the MongoDB-construct rewrites are assumed not to fire on this
input.  When the objects are concatenated on one line with no newline
between them, the claim fails: the scanner buffers the whole line, the
combined fragment is not valid JSON, and the parse returns no records. -/
theorem parse_mongodb_json_newline_separated_objects (ns : List String)
    (hlen : 2 ≤ ns.length)
    (hgood : ∀ s ∈ ns, ∀ c ∈ s.toList, goodChar c = true)
    (hsubs : mongoSubs (joinNl (ns.map renderLine)) = joinNl (ns.map renderLine)) :
    parse_mongodb_json ⟨joinNl (ns.map renderLine)⟩ = ns.map recJson := by
  unfold parse_mongodb_json
  dsimp only
  rw [show (String.mk (joinNl (ns.map renderLine))).toList = joinNl (ns.map renderLine)
    from rfl]
  rw [hsubs]
  unfold scanPhase
  have hne : ns.map renderLine ≠ [] := by
    intro h
    rw [List.map_eq_nil_iff] at h
    rw [h] at hlen
    exact absurd hlen (by decide)
  have hnf : ∀ l ∈ ns.map renderLine, ∀ c ∈ l, c ≠ '\n' := by
    intro l hl
    obtain ⟨s, hs, rfl⟩ := List.mem_map.mp hl
    exact renderLine_nf s (hgood s hs)
  rw [splitNl_joinNl (ns.map renderLine) hne hnf]
  rw [show pInit = (⟨[], [], scanInit⟩ : PState) from rfl]
  rw [foldl_processLine_renderLines ns hgood []]
  dsimp only
  rw [List.nil_append]
  rw [if_neg ?empt]
  case empt =>
    intro h
    rw [List.isEmpty_iff, List.map_eq_nil_iff] at h
    rw [h] at hlen
    exact absurd hlen (by decide)

/-- The two names of the C4 witness input: one with a brace, a bracket and an
escaped quote in the value, one plain. -/
def c4wNames : List String := ["A\x7b\"x]", "Bo"]

theorem parse_mongodb_json_newline_separated_objects_witness :
    2 ≤ c4wNames.length ∧
    parse_mongodb_json ⟨joinNl (c4wNames.map renderLine)⟩ =
      [Json.obj [("fullName", Json.str "A\x7b\"x]")],
       Json.obj [("fullName", Json.str "Bo")]] := by
  refine ⟨by decide, ?_⟩
  have h := parse_mongodb_json_newline_separated_objects c4wNames (by decide) (by decide)
    (by decide)
  rw [h]
  rfl
